import Mathlib

/-!
Verification development for the excel-template-engine core
(`src/index.ts`): placeholder parsing, scoped path resolution, value /
join / formula rendering, table-row expansion and the hide-offset
bookkeeping of the sheet orchestrator.

Modelling conventions (shallow embedding):
* JavaScript runtime values are the inductive `JsVal`; `undefined` is
  represented by `Option.none` at the points where lodash can produce it
  (`_.get`), while `null` is the constructor `JsVal.null`.
* JS numbers are modelled as `ℚ` (exact arithmetic stands in for IEEE
  doubles; all claims under test involve small integer arithmetic).
* `Number(s)` is modelled by `jsNumber` covering decimal literals with
  optional sign, fraction and exponent; hexadecimal literals and
  `Infinity` are outside the model.
* `Date` objects are `JsVal.date ms` (milliseconds since epoch, UTC);
  local-timezone handling of ISO strings without offset is approximated
  as UTC.  Rich-text cell values are outside the model (no claim touches
  them).
* Strings are processed as `List Char` via `String.data`/`String.mk` so
  all parsers are structurally recursive and kernel-evaluable.
-/

/-! ## Characters and basic string utilities -/

/-- The `{` character (written via its code to keep string/char literals free
of braces). -/
def lbrace : Char := Char.ofNat 123

/-- The `}` character. -/
def rbrace : Char := Char.ofNat 125

/-- The single-quote character. -/
def squote : Char := Char.ofNat 39

/-- The double-quote character. -/
def dquote : Char := Char.ofNat 34

/-- JS whitespace (`\s`), restricted to the ASCII whitespace characters that
lodash `trim` / `String.prototype.trim` treat as blank. -/
def wsChar (c : Char) : Bool :=
  c == ' ' || c == Char.ofNat 9 || c == Char.ofNat 10 || c == Char.ofNat 13 ||
  c == Char.ofNat 11 || c == Char.ofNat 12

/-- ASCII digit. -/
def isDigitC (c : Char) : Bool := 48 ≤ c.toNat && c.toNat ≤ 57

/-- ASCII letter. -/
def isAlphaC (c : Char) : Bool :=
  (65 ≤ c.toNat && c.toNat ≤ 90) || (97 ≤ c.toNat && c.toNat ≤ 122)

/-- Regex `\w` class: letter, digit or underscore. -/
def wordCharC (c : Char) : Bool := isDigitC c || isAlphaC c || c == '_'

/-- Model of `String.prototype.toUpperCase` on one character (ASCII model). -/
def jsToUpperChar (c : Char) : Char :=
  if 97 ≤ c.toNat ∧ c.toNat ≤ 122 then Char.ofNat (c.toNat - 32) else c

/-- Model of `String.prototype.toLowerCase` on one character (ASCII model). -/
def jsToLowerChar (c : Char) : Char :=
  if 65 ≤ c.toNat ∧ c.toNat ≤ 90 then Char.ofNat (c.toNat + 32) else c

/-- Drop trailing whitespace. -/
def trimEndChars (l : List Char) : List Char :=
  (l.reverse.dropWhile wsChar).reverse

/-- Model of `trim`: drop leading and trailing whitespace (models `_.trim` /
`String.prototype.trim`). -/
def jsTrimChars (l : List Char) : List Char :=
  trimEndChars (l.dropWhile wsChar)

/-- Model of `trim` on `String`. -/
def jsTrim (s : String) : String := String.mk (jsTrimChars s.data)

/-- Model of `String.prototype.toUpperCase` (ASCII model). -/
def strUpper (s : String) : String := String.mk (s.data.map jsToUpperChar)

/-- Does `pat` occur at the start of `l`? -/
def startsList : List Char → List Char → Bool
  | [], _ => true
  | _ :: _, [] => false
  | p :: ps, c :: cs => p == c && startsList ps cs

/-- Does `l` end with two `}` characters? -/
def endsRbRb (l : List Char) : Bool := startsList [rbrace, rbrace] l.reverse

/-- Remove the last `n` characters. -/
def dropEnd (n : Nat) (l : List Char) : List Char := l.take (l.length - n)

/-- Does the string contain a doubled `{` (models the `includes` check for a doubled brace)? -/
def hasDoubleLbrace : List Char → Bool
  | [] => false
  | [_] => false
  | c1 :: c2 :: rest => (c1 == lbrace && c2 == lbrace) || hasDoubleLbrace (c2 :: rest)

/-! ## The JS number model (`Number(s)`) -/

/-- Numeric value of a digit character. -/
def digitVal (c : Char) : Nat := c.toNat - 48

/-- Value of a digit string. -/
def digitsToNat (l : List Char) : Nat := l.foldl (fun a c => a * 10 + digitVal c) 0

/-- Value of `ip.fp` as a rational. -/
def decValue (ip fp : List Char) : ℚ :=
  (digitsToNat (ip ++ fp) : ℚ) / (10 : ℚ) ^ fp.length

/-- Core of `Number(s)` on an already-trimmed, non-empty string: optional
sign, integer/fraction digits, optional exponent.  `none` models `NaN`.
(Hexadecimal literals and `Infinity` are outside this model.) -/
def jsNumCore (l : List Char) : Option ℚ :=
  let sgnSplit : ℚ × List Char :=
    match l with
    | c :: rest => if c == '-' then (-1, rest) else if c == '+' then (1, rest) else (1, l)
    | [] => (1, l)
  let sgn := sgnSplit.1
  let l1 := sgnSplit.2
  let ip := l1.takeWhile isDigitC
  let l2 := l1.dropWhile isDigitC
  let fpSplit : List Char × List Char :=
    match l2 with
    | c :: rest => if c == '.' then (rest.takeWhile isDigitC, rest.dropWhile isDigitC) else ([], l2)
    | [] => ([], l2)
  let fp := fpSplit.1
  let l3 := fpSplit.2
  if ip = [] ∧ fp = [] then none
  else
    match l3 with
    | [] => some (sgn * decValue ip fp)
    | c :: rest =>
      if c == 'e' || c == 'E' then
        let expSplit : Bool × List Char :=
          match rest with
          | d :: rr => if d == '-' then (true, rr) else if d == '+' then (false, rr) else (false, rest)
          | [] => (false, rest)
        let eneg := expSplit.1
        let r1 := expSplit.2
        let ed := r1.takeWhile isDigitC
        let r2 := r1.dropWhile isDigitC
        if ed = [] ∨ r2 ≠ [] then none
        else
          let e := digitsToNat ed
          some (sgn * decValue ip fp * (if eneg then 1 / (10 : ℚ) ^ e else (10 : ℚ) ^ e))
      else none

/-- Model of `Number(s)`: trims its input; the empty (all-blank) string converts
to `0`; otherwise as `jsNumCore`. -/
def jsNumber (s : String) : Option ℚ :=
  let t := jsTrimChars s.data
  if t = [] then some 0 else jsNumCore t

/-! ## ISO date strings

The value renderer only date-parses strings matching the strict regex
`^\d\d\d\d-\d\d-\d\d(T\d\d:\d\d(:\d\d)?(\.\d+)?(Z|[+-]\d\d:?\d\d)?)?$`;
the shape checkers below transcribe that regex, and `isoParse` models
`Date.parse` on shape-matching strings (range-validating the fields and
computing a UTC millisecond timestamp). -/

/-- Timezone suffix: empty, `Z`, or `[+-]\d\d:?\d\d`. -/
def isoTZShape : List Char → Bool
  | [] => true
  | c :: rest =>
    if c == 'Z' then rest = []
    else if c == '+' || c == '-' then
      match rest with
      | a :: b :: more =>
        isDigitC a && isDigitC b &&
        (match more with
         | c2 :: d :: e :: rest3 =>
           if c2 == ':' then isDigitC d && isDigitC e && rest3 = []
           else (match rest3 with
                 | [] => isDigitC c2 && isDigitC d && e == ' ' && false
                 | _ => false)
         | d :: e :: rest3 => isDigitC d && isDigitC e && rest3 = []
         | _ => false)
      | _ => false
    else false

/-- Optional fractional seconds `(\.\d+)?` followed by the timezone. -/
def isoFracShape : List Char → Bool
  | [] => true
  | c :: rest =>
    if c == '.' then
      let ds := rest.takeWhile isDigitC
      !ds.isEmpty && isoTZShape (rest.dropWhile isDigitC)
    else isoTZShape (c :: rest)

/-- Optional seconds `(:\d\d)?` followed by fraction/timezone. -/
def isoSecShape : List Char → Bool
  | c :: a :: b :: rest =>
    if c == ':' then isDigitC a && isDigitC b && isoFracShape rest
    else isoFracShape (c :: a :: b :: rest)
  | l => isoFracShape l

/-- Optional time part `(T\d\d:\d\d …)?`. -/
def isoTimeShape : List Char → Bool
  | [] => true
  | t :: h1 :: h2 :: c :: n1 :: n2 :: rest =>
    t == 'T' && isDigitC h1 && isDigitC h2 && c == ':' && isDigitC n1 && isDigitC n2 &&
      isoSecShape rest
  | _ => false

/-- Pattern `-\d\d` then the day and time (second half of the date part). -/
def isoDayShape : List Char → Bool
  | c :: d1 :: d2 :: rest => c == '-' && isDigitC d1 && isDigitC d2 && isoTimeShape rest
  | _ => false

/-- Pattern `-\d\d` then day (month and onwards of the date part). -/
def isoMonthShape : List Char → Bool
  | c :: m1 :: m2 :: rest => c == '-' && isDigitC m1 && isDigitC m2 && isoDayShape rest
  | _ => false

/-- The full strict ISO date / date-time shape of the value renderer. -/
def isoDateShape : List Char → Bool
  | y1 :: y2 :: y3 :: y4 :: rest =>
    isDigitC y1 && isDigitC y2 && isDigitC y3 && isDigitC y4 && isoMonthShape rest
  | _ => false

/-- Leap year (Gregorian). -/
def isLeapYear (y : Nat) : Bool := y % 4 = 0 && (y % 100 ≠ 0 || y % 400 = 0)

/-- Days in a month. -/
def daysInMonth (y m : Nat) : Nat :=
  if m = 2 then (if isLeapYear y then 29 else 28)
  else if m = 4 ∨ m = 6 ∨ m = 9 ∨ m = 11 then 30
  else 31

/-- Days from the epoch (1970-01-01) to the civil date `y-m-d`
(the Hinnant civil-days formula, with floor division). -/
def daysFromCivil (y mo da : Nat) : Int :=
  let y' : Int := if mo ≤ 2 then (y : Int) - 1 else (y : Int)
  let era : Int := Int.fdiv y' 400
  let yoe : Int := y' - era * 400
  let mp : Int := if 3 ≤ mo then (mo : Int) - 3 else (mo : Int) + 9
  let doy : Int := (153 * mp + 2) / 5 + (da : Int) - 1
  let doe : Int := yoe * 365 + yoe / 4 - yoe / 100 + doy
  era * 146097 + doe - 719468

/-- Timezone suffix as a millisecond offset (validated); `none` = invalid. -/
def isoParseTZ : List Char → Option Int
  | [] => some 0
  | c :: rest =>
    if c == 'Z' then (if rest = [] then some 0 else none)
    else if c == '+' || c == '-' then
      let sgn : Int := if c == '-' then -1 else 1
      match rest with
      | a :: b :: more =>
        let hhmm : Option (Nat × Nat) :=
          match more with
          | c2 :: d :: e :: rest3 =>
            if c2 == ':' ∧ rest3 = [] then some (digitsToNat [a, b], digitsToNat [d, e]) else none
          | d :: e :: rest3 =>
            if rest3 = [] then some (digitsToNat [a, b], digitsToNat [d, e]) else none
          | _ => none
        match hhmm with
        | some (hh, mm) =>
          if hh ≤ 23 ∧ mm ≤ 59 then some (sgn * ((hh : Int) * 60 + mm) * 60000) else none
        | none => none
      | _ => none
    else none

/-- Fractional seconds as milliseconds (truncated to 3 digits), then the
timezone offset. -/
def isoParseFrac : List Char → Option (Int × Int)
  | [] => some (0, 0)
  | c :: rest =>
    if c == '.' then
      let ds := rest.takeWhile isDigitC
      match isoParseTZ (rest.dropWhile isDigitC) with
      | some tz => some ((digitsToNat ((ds ++ ['0', '0', '0']).take 3) : Int), tz)
      | none => none
    else
      match isoParseTZ (c :: rest) with
      | some tz => some (0, tz)
      | none => none

/-- Optional seconds, then fraction and timezone: milliseconds within the
minute minus the timezone offset. -/
def isoParseSec : List Char → Option Int
  | c :: a :: b :: rest =>
    if c == ':' then
      let ss := digitsToNat [a, b]
      if ss ≤ 59 then
        match isoParseFrac rest with
        | some (fr, tz) => some ((ss : Int) * 1000 + fr - tz)
        | none => none
      else none
    else
      match isoParseFrac (c :: a :: b :: rest) with
      | some (fr, tz) => some (fr - tz)
      | none => none
  | l =>
    match isoParseFrac l with
    | some (fr, tz) => some (fr - tz)
    | none => none

/-- Time-of-day part in milliseconds (UTC, after subtracting the offset). -/
def isoParseTime : List Char → Option Int
  | [] => some 0
  | _ :: h1 :: h2 :: _ :: n1 :: n2 :: rest =>
    let hh := digitsToNat [h1, h2]
    let mi := digitsToNat [n1, n2]
    if hh ≤ 23 ∧ mi ≤ 59 then
      match isoParseSec rest with
      | some ms => some ((hh : Int) * 3600000 + (mi : Int) * 60000 + ms)
      | none => none
    else none
  | _ => none

/-- Model of `Date.parse` on a shape-matching ISO string: validates calendar and
time ranges, returns UTC milliseconds (`none` models `NaN`). -/
def isoParse : List Char → Option Int
  | y1 :: y2 :: y3 :: y4 :: _ :: m1 :: m2 :: _ :: d1 :: d2 :: rest =>
    let y := digitsToNat [y1, y2, y3, y4]
    let mo := digitsToNat [m1, m2]
    let da := digitsToNat [d1, d2]
    if 1 ≤ mo ∧ mo ≤ 12 ∧ 1 ≤ da ∧ da ≤ daysInMonth y mo then
      match isoParseTime rest with
      | some tms => some (daysFromCivil y mo da * 86400000 + tms)
      | none => none
    else none
  | _ => none

/-! ## JS values -/

/-- JavaScript runtime values as they appear in template data and cells.
`formula f` is the `\x7bformula: f\x7d` object produced by the formula
renderer.  Rich-text cell values are outside the model. -/
inductive JsVal where
  | null
  | bool (b : Bool)
  | num (q : ℚ)
  | str (s : String)
  | date (ms : Int)
  | arr (xs : List JsVal)
  | obj (fields : List (String × JsVal))
  | formula (f : String)

instance : Inhabited JsVal := ⟨JsVal.null⟩

/-- Is the value `null`? (`_.isNil` on values that cannot be `undefined`.) -/
def isNullV : JsVal → Bool
  | .null => true
  | _ => false

/-- Model of `String(v)` for a number: exact integers print as integers; other
rationals print as `num/den` (an acknowledged approximation of JS float
formatting — no claim under test depends on non-integer formatting). -/
def jsNumToString (q : ℚ) : String :=
  if q.den = 1 then toString q.num else toString q.num ++ "/" ++ toString q.den

/-- Model of `String(v)` (JS string coercion).  Arrays join their elements with
commas, rendering `null` elements as empty; plain objects print
`[object Object]`.  Dates print a tagged placeholder (approximation). -/
def jsString : JsVal → String
  | .null => "null"
  | .bool b => if b then "true" else "false"
  | .num q => jsNumToString q
  | .str s => s
  | .date ms => "[Date " ++ toString ms ++ "]"
  | .formula _ => "[object Object]"
  | .obj _ => "[object Object]"
  | .arr xs => String.intercalate "," (xs.attach.map fun vh =>
      if isNullV vh.1 then "" else jsString vh.1)
decreasing_by
  have h := List.sizeOf_lt_of_mem vh.2
  simp only [JsVal.arr.sizeOf_spec]
  omega

/-- Model of `JSON.stringify(v)` (string escaping is not modelled; no claim under
test stringifies strings containing quotes). -/
def jsonStringify : JsVal → String
  | .null => "null"
  | .bool b => if b then "true" else "false"
  | .num q => jsNumToString q
  | .str s => "\"" ++ s ++ "\""
  | .date ms => "\"[Date " ++ toString ms ++ "]\""
  | .formula f => "\x7b\"formula\":\"" ++ f ++ "\"\x7d"
  | .arr xs => "[" ++ String.intercalate "," (xs.attach.map fun vh => jsonStringify vh.1) ++ "]"
  | .obj fs => "\x7b" ++
      String.intercalate "," (fs.attach.map fun ph =>
        "\"" ++ ph.1.1 ++ "\":" ++ jsonStringify ph.1.2) ++ "\x7d"
decreasing_by
  · have h := List.sizeOf_lt_of_mem vh.2
    simp only [JsVal.arr.sizeOf_spec]
    omega
  · obtain ⟨⟨k, v⟩, hm⟩ := ph
    have h := List.sizeOf_lt_of_mem hm
    simp only [Prod.mk.sizeOf_spec] at h
    simp only [JsVal.obj.sizeOf_spec]
    omega

/-! ## Path resolution (`_.get` and `resolve`) -/

/-- Split on `.` (models lodash path splitting for dotted paths;
bracket paths are not modelled). -/
def splitDotGo (cur : List Char) : List Char → List (List Char)
  | [] => [cur.reverse]
  | c :: rest => if c == '.' then cur.reverse :: splitDotGo [] rest else splitDotGo (c :: cur) rest

/-- Split a path string on `.`. -/
def splitDot (l : List Char) : List (List Char) := splitDotGo [] l

/-- A valid array index segment: digits without a superfluous leading zero. -/
def natFromDigits? (seg : List Char) : Option Nat :=
  if seg ≠ [] ∧ seg.all isDigitC ∧ (seg.head? ≠ some '0' ∨ seg = ['0']) then
    some (digitsToNat seg)
  else none

/-- One path segment of `_.get`: object key lookup or array index. -/
def jsGetSeg (v : JsVal) (seg : List Char) : Option JsVal :=
  match v with
  | .obj fs => (fs.find? fun p => p.1 == String.mk seg).map (·.2)
  | .arr xs =>
    match natFromDigits? seg with
    | some i => xs.get? i
    | none => none
  | _ => none

/-- Walk a split path. -/
def jsGetPath : JsVal → List (List Char) → Option JsVal
  | v, [] => some v
  | v, seg :: rest =>
    match jsGetSeg v seg with
    | some v2 => jsGetPath v2 rest
    | none => none

/-- Model of `_.get(value, path)`; `none` models `undefined`. -/
def jsGet (v : JsVal) (path : String) : Option JsVal :=
  jsGetPath v (splitDot path.data)

/-- The trailing `?? ""` of `resolve`: `undefined` and `null` both become
the empty string. -/
def nullishToEmpty : Option JsVal → JsVal
  | none => .str ""
  | some .null => .str ""
  | some v => v

/-- Model of `resolve(path, scopes)`: reduce over the scopes keeping the first
non-`undefined` result, then coalesce nullish to `""`. -/
def resolve (path : String) (scopes : List JsVal) : JsVal :=
  nullishToEmpty <| scopes.foldl
    (fun result scope =>
      match result with
      | some v => some v
      | none => jsGet scope path)
    none

/-- First scope value at which the path resolves to a defined (non-
`undefined`) value — the specification-level reading of `resolve`,
used to compare the claim against the implementation. -/
def firstDefined (path : String) (scopes : List JsVal) : Option JsVal :=
  scopes.findSome? fun scope => jsGet scope path

/-! ## Placeholder detection

The cell-level patterns of `PLACEHOLDER_REGEX` (`constants.ts`),
transcribed as deterministic character-list matchers:
* `TABLE`   `^\x7b\x7b#table\s+(.+?)\x7d\x7d$`
* `FORMULA` `^\x7b\x7b#formula\s+(SUM|AVERAGE|COUNT|MIN|MAX)\s+([A-Za-z_][\w.]*)\x7d\x7d$` (case-insensitive)
* `JOIN`    a doubled brace, lazy path, pipe, `join(` with a quoted separator, `)`, doubled brace
* `VALUE`   `^\x7b\x7b([^\x7d]+)\x7d\x7d$`
* `COLUMN_LETTER` `^[A-Z]+$` (case-insensitive)
-/

/-- Case-insensitive literal match: strips `pat` (a lowercase pattern)
from the head of `l`, comparing case-insensitively. -/
def ciStrip : List Char → List Char → Option (List Char)
  | [], l => some l
  | _ :: _, [] => none
  | p :: ps, c :: cs => if jsToLowerChar p == jsToLowerChar c then ciStrip ps cs else none

/-- The five supported aggregate words. -/
def formulaTypeWords : List String := ["SUM", "AVERAGE", "COUNT", "MIN", "MAX"]

/-- Try to strip one of the five aggregate words (case-insensitively) from
the head of `l`; returns the matched characters as written and the rest. -/
def matchTypeWord (l : List Char) : Option (String × List Char) :=
  (formulaTypeWords.map fun w =>
      (ciStrip w.data l).map fun rest => (String.mk (l.take w.data.length), rest)).findSome? id

/-- Formula body `#formula\s+(TYPE)\s+([A-Za-z_][\w.]*)` anchored at both
ends (shared by the whole-cell `FORMULA` pattern and the inline
interpolation pattern): returns the type capture as written and the
target capture. -/
def matchFormulaBody (l : List Char) : Option (String × List Char) :=
  match ciStrip "#formula".data l with
  | none => none
  | some r1 =>
    match r1 with
    | [] => none
    | w :: _ =>
      if wsChar w then
        let r2 := r1.dropWhile wsChar
        match matchTypeWord r2 with
        | none => none
        | some (ftRaw, r3) =>
          match r3 with
          | [] => none
          | w2 :: _ =>
            if wsChar w2 then
              let tgt := r3.dropWhile wsChar
              match tgt with
              | [] => none
              | t0 :: trest =>
                if (isAlphaC t0 || t0 == '_') &&
                    trest.all (fun c => wordCharC c || c == '.') then
                  some (ftRaw, tgt)
                else none
            else none
      else none

/-- Whole-cell `TABLE` pattern: returns the raw capture (before `_.trim`). -/
def matchTable (l : List Char) : Option (List Char) :=
  if startsList (lbrace :: lbrace :: "#table".data) l ∧ endsRbRb l then
    let core := dropEnd 2 (l.drop 8)
    match core with
    | [] => none
    | w :: rest =>
      if wsChar w ∧ rest ≠ [] then some (core.dropWhile wsChar) else none
  else none

/-- Whole-cell `FORMULA` pattern. -/
def matchFormula (l : List Char) : Option (String × List Char) :=
  if startsList [lbrace, lbrace] l ∧ endsRbRb l ∧ 4 ≤ l.length then
    matchFormulaBody (dropEnd 2 (l.drop 2))
  else none

/-- The join tail of the join pattern (literal `join(`, a quote, lazy separator, a quote, `)`), anchored at the end:
returns the separator capture. -/
def joinTail (l : List Char) : Option String :=
  if startsList "join(".data l then
    match l.drop 5 with
    | q1 :: rest =>
      if (q1 == dquote || q1 == squote) ∧ 3 ≤ rest.length then
        let sep := dropEnd 2 rest
        match rest.reverse with
        | p :: q2 :: _ =>
          if p == ')' && (q2 == dquote || q2 == squote) then some (String.mk sep) else none
        | _ => none
      else none
    | [] => none
  else none

/-- Scan the inner text for the pipe that starts a valid `join(...)` tail
(the lazy `(.+?)\s*\|\s*` of the regex takes the first such pipe with a
non-empty prefix).  Returns the raw path capture and the separator. -/
def matchJoinGo (inner : List Char) : Nat → List Char → Option (List Char × String)
  | _, [] => none
  | idx, c :: rest =>
    if c == '|' ∧ 1 ≤ idx then
      match joinTail (rest.dropWhile wsChar) with
      | some sep => some (inner.take idx, sep)
      | none => matchJoinGo inner (idx + 1) rest
    else matchJoinGo inner (idx + 1) rest

/-- Whole-cell `JOIN` pattern. -/
def matchJoin (l : List Char) : Option (List Char × String) :=
  if startsList [lbrace, lbrace] l ∧ endsRbRb l ∧ 4 ≤ l.length then
    let inner := dropEnd 2 (l.drop 2)
    matchJoinGo inner 0 inner
  else none

/-- Whole-cell `VALUE` pattern: returns the raw capture. -/
def matchValue (l : List Char) : Option (List Char) :=
  if startsList [lbrace, lbrace] l ∧ endsRbRb l ∧ 4 ≤ l.length then
    let inner := dropEnd 2 (l.drop 2)
    if inner ≠ [] ∧ inner.all (· ≠ rbrace) then some inner else none
  else none

/-- Placeholder kinds. -/
inductive PhType where
  | value
  | table
  | join
  | formula
deriving DecidableEq

/-- A detected placeholder.  Fields that the source leaves `undefined` are
the empty string (both are falsy in every test the engine performs, so the
conflation is observationally faithful). -/
structure Placeholder where
  type : PhType
  path : String
  separator : String
  formulaType : String
  column : String
  arrayPath : String
  fieldName : String
deriving DecidableEq

/-- Index of the last `.` (models `String.prototype.lastIndexOf('.')`,
with `none` for "not found"). -/
def lastDotIdx (l : List Char) : Option Nat :=
  ((l.enum.filter fun p => p.2 == '.').map fun p => p.1).getLast?

/-- Column-letter test of the formula parser: `^[A-Z]+$/i` and at most
three letters. -/
def isColumnLetterTarget (tgt : List Char) : Bool :=
  tgt ≠ [] && tgt.all isAlphaC && tgt.length ≤ 3

/-- Model of `detectPlaceholder(cellValue)`: non-strings never match; the trimmed
text is tried against the table, formula, join and value patterns in that
order. -/
def detectPlaceholder (cellValue : JsVal) : Option Placeholder :=
  match cellValue with
  | .str s =>
    let l := jsTrimChars s.data
    match matchTable l with
    | some pathRaw => some ⟨.table, String.mk (jsTrimChars pathRaw), "", "", "", "", ""⟩
    | none =>
      match matchFormula l with
      | some (ftRaw, tgt) =>
        let ftU := strUpper ftRaw
        if isColumnLetterTarget tgt then
          some ⟨.formula, "", "", ftU, strUpper (String.mk tgt), "", ""⟩
        else
          let split : String × String :=
            match lastDotIdx tgt with
            | some i =>
              if 0 < i then (String.mk (tgt.take i), String.mk (tgt.drop (i + 1)))
              else ("", String.mk tgt)
            | none => ("", String.mk tgt)
          some ⟨.formula, String.mk tgt, "", ftU, "", split.1, split.2⟩
      | none =>
        match matchJoin l with
        | some (pathRaw, sep) =>
          some ⟨.join, String.mk (jsTrimChars pathRaw), sep, "", "", "", ""⟩
        | none =>
          match matchValue l with
          | some inner => some ⟨.value, String.mk (jsTrimChars inner), "", "", "", "", ""⟩
          | none => none
  | _ => none

/-! ## Cell rendering -/

/-- Rendering options (`RenderOptions` of `types.ts`); the absent-options
call sites of the source pass `autoParseNumbers = false`. -/
structure RenderOptions where
  autoParseNumbers : Bool
deriving DecidableEq

/-- Model of `renderValue(path, scopes, options)`: type-preserving conversion of the
resolved value, with opt-in numeric-string parsing and strict ISO date
detection. -/
def renderValue (path : String) (scopes : List JsVal) (options : RenderOptions) : JsVal :=
  let value := resolve path scopes
  match value with
  | .null => .str ""
  | .date ms => .date ms
  | .num q => .num q
  | .str s =>
    let trimmed := jsTrimChars s.data
    if trimmed = [] then .str s
    else if options.autoParseNumbers ∧ (jsNumCore trimmed).isSome then
      .num ((jsNumCore trimmed).getD 0)
    else if isoDateShape trimmed then
      match isoParse trimmed with
      | some ms => .date ms
      | none => .str s
    else .str s
  | .bool b => .bool b
  | v => .str (jsonStringify v)

/-- Model of `renderJoin(path, separator, scopes)`. -/
def renderJoin (path : String) (separator : String) (scopes : List JsVal) : String :=
  let dotted : Option String :=
    match lastDotIdx path.data with
    | some i =>
      if 0 < i then
        let arrayPath := String.mk (path.data.take i)
        let propertyName := String.mk (path.data.drop (i + 1))
        match resolve arrayPath scopes with
        | .arr xs =>
          if !xs.isEmpty then
            some (String.intercalate separator
              ((xs.map fun item =>
                  match jsGet item propertyName with
                  | none => ""
                  | some .null => ""
                  | some v => jsString v).filter fun v => v ≠ ""))
          else none
        | _ => none
      else none
    | none => none
  match dotted with
  | some out => out
  | none =>
    match resolve path scopes with
    | .arr xs =>
      if xs.isEmpty then ""
      else
        String.intercalate separator
          ((xs.map fun item => if isNullV item then "" else jsString item).filter
            fun v => v ≠ "" ∧ v ≠ "[object Object]")
    | _ => ""

/-- Aggregate table-render info (`TableRenderInfo` of `types.ts`);
`fieldColumnMap` is the JS `Map` as an association list with
insertion-order `set`-overwrite semantics. -/
structure TInfo where
  startRow : Nat
  endRow : Nat
  path : String
  fieldColumnMap : List (String × String)
deriving DecidableEq

/-- JS `Map.prototype.get`. -/
def fmGet (m : List (String × String)) (k : String) : Option String :=
  (m.find? fun p => p.1 == k).map (·.2)

/-- JS `Map.prototype.set` (overwrite existing key, else append). -/
def fmSet (m : List (String × String)) (k v : String) : List (String × String) :=
  match m with
  | [] => [(k, v)]
  | (k', v') :: rest => if k' == k then (k, v) :: rest else (k', v') :: fmSet rest k v

/-- JS `Map.prototype.has`. -/
def fmHas (m : List (String × String)) (k : String) : Bool :=
  (m.find? fun p => p.1 == k).isSome

/-- Model of `_.sum` (reduce with `+`). -/
def qSum (l : List ℚ) : ℚ := l.foldl (· + ·) 0

/-- Model of `_.min(values) ?? 0` (the call sites guarantee non-emptiness). -/
def qMin0 : List ℚ → ℚ
  | [] => 0
  | x :: rest => rest.foldl min x

/-- Model of `_.max(values) ?? 0`. -/
def qMax0 : List ℚ → ℚ
  | [] => 0
  | x :: rest => rest.foldl max x

/-- Field coercion of the fallback computation: numbers pass through,
non-blank numeric strings convert via `Number`, everything else becomes
`NaN` and is filtered out. -/
def coerceFieldNums (xs : List JsVal) (fieldName : String) : List ℚ :=
  xs.filterMap fun item =>
    match jsGet item fieldName with
    | some (.num q) => some q
    | some (.str s) =>
      if jsTrimChars s.data ≠ [] ∧ (jsNumber s).isSome then jsNumber s else none
    | _ => none

/-- Error messages of `constants.ts`. -/
def errFieldNotFound (field : String) : String :=
  "#ERROR: Field " ++ String.mk [squote] ++ field ++ String.mk [squote] ++ " not found in table"

/-- The `NO_COLUMN_SPECIFIED` marker. -/
def errNoColumn : String := "#ERROR: No column specified for formula"

/-- The `NO_TABLE_OR_PATH` marker. -/
def errNoTableOrPath : String := "#ERROR: No table or array path found for formula"

/-- The `UNKNOWN_FORMULA_TYPE` marker. -/
def errUnknownFormulaType (t : String) : String := "#ERROR: Unknown formula type: " ++ t

/-- The switch of the fallback branch of `renderFormula` (exact string
match on the formula type; `default` yields the error marker). -/
def aggregateFallback (formulaType : String) (values : List ℚ) : JsVal :=
  if formulaType = "SUM" then .num (qSum values)
  else if formulaType = "AVERAGE" then .num (qSum values / (values.length : ℚ))
  else if formulaType = "COUNT" then .num (values.length : ℚ)
  else if formulaType = "MIN" then .num (qMin0 values)
  else if formulaType = "MAX" then .num (qMax0 values)
  else .str (errUnknownFormulaType formulaType)

/-- Model of `renderFormula(formulaType, columnOrField, fieldName, arrayPath,
tableInfo, data)`.  TS erases the `FormulaType` union at runtime, so the
type is a plain string here, exactly as the switch treats it. -/
def renderFormula (formulaType : String) (columnOrField : String) (fieldName : String)
    (arrayPath : String) (tableInfo : Option TInfo) (data : JsVal) : JsVal :=
  let tableBranch : Option JsVal :=
    match tableInfo with
    | some ti =>
      if 0 < ti.startRow ∧ 0 < ti.endRow then
        some
          (if columnOrField ≠ "" then
            .formula (formulaType ++ "(" ++ columnOrField ++ toString ti.startRow ++ ":" ++
              columnOrField ++ toString ti.endRow ++ ")")
          else if fieldName ≠ "" then
            match fmGet ti.fieldColumnMap fieldName with
            | some c =>
              if c = "" then .str (errFieldNotFound fieldName)
              else
                .formula (formulaType ++ "(" ++ c ++ toString ti.startRow ++ ":" ++
                  c ++ toString ti.endRow ++ ")")
            | none => .str (errFieldNotFound fieldName)
          else .str errNoColumn)
      else none
    | none => none
  match tableBranch with
  | some out => out
  | none =>
    if arrayPath = "" ∨ fieldName = "" then .str errNoTableOrPath
    else
      match jsGet data arrayPath with
      | some (.arr xs) =>
        if xs.isEmpty then .num 0
        else
          let values := coerceFieldNums xs fieldName
          if values = [] then .num 0 else aggregateFallback formulaType values
      | _ => .num 0

/-- Model of `calculateFormulaValue(formulaType, arrayPath, fieldName, scopes)`:
direct computation used by inline interpolation; the switch uppercases the
type and `String(result)` stringifies. -/
def calculateFormulaValue (formulaType arrayPath fieldName : String)
    (scopes : List JsVal) : String :=
  match resolve arrayPath scopes with
  | .arr xs =>
    if xs.isEmpty then "0"
    else
      let values := coerceFieldNums xs fieldName
      if values = [] then "0"
      else
        let ftU := strUpper formulaType
        if ftU = "SUM" then jsNumToString (qSum values)
        else if ftU = "AVERAGE" then jsNumToString (qSum values / (values.length : ℚ))
        else if ftU = "COUNT" then jsNumToString (values.length : ℚ)
        else if ftU = "MIN" then jsNumToString (qMin0 values)
        else if ftU = "MAX" then jsNumToString (qMax0 values)
        else errUnknownFormulaType formulaType
  | _ => "0"

/-! ## Inline interpolation (`renderInterpolatedString`) -/

/-- Join body (lazy path capture, pipe, quoted-separator join tail) anchored at both ends
(shared by the whole-cell `JOIN` pattern and the inline pattern). -/
def matchJoinBody (inner : List Char) : Option (List Char × String) :=
  matchJoinGo inner 0 inner

/-- The replace callback of `renderInterpolatedString` on one trimmed
`\x7b\x7b…\x7d\x7d` expression: inline formula, inline join, or plain
value lookup stringified. -/
def renderExpr (scopes : List JsVal) (expr : String) : String :=
  match matchFormulaBody expr.data with
  | some (ftRaw, tgt) =>
    (match lastDotIdx tgt with
     | some i =>
       if 0 < i then
         calculateFormulaValue ftRaw (String.mk (tgt.take i)) (String.mk (tgt.drop (i + 1)))
           scopes
       else "#ERROR: Invalid formula path: " ++ String.mk tgt
     | none => "#ERROR: Invalid formula path: " ++ String.mk tgt)
  | none =>
    match matchJoinBody expr.data with
    | some (pathRaw, sep) => renderJoin (String.mk (jsTrimChars pathRaw)) sep scopes
    | none =>
      match resolve expr scopes with
      | .null => ""
      | v => jsString v

/-- One attempt of the `INLINE` pattern at a position just after a doubled
`\x7b`: the lazy capture `[^\x7d]+?` runs to the first `\x7d`, which must
start a doubled `\x7d`.  Returns the capture and the remainder (with a
length bound for termination of the scanner). -/
def tryInline (l : List Char) : Option (List Char × {r : List Char // r.length < l.length}) :=
  let content := l.takeWhile (· ≠ rbrace)
  match hd : l.dropWhile (· ≠ rbrace) with
  | a1 :: a2 :: rest3 =>
    if a1 == rbrace ∧ a2 == rbrace ∧ content ≠ [] then
      some (content, ⟨rest3, by
        have hle : (l.dropWhile (· ≠ rbrace)).length ≤ l.length :=
          (List.dropWhile_sublist _).length_le
        rw [hd] at hle
        simp only [List.length_cons] at hle
        omega⟩)
    else none
  | _ => none

/-- Scanner for the global `INLINE` pattern
`\x7b\x7b\s*([^\x7d]+?)\s*\x7d\x7d`: each match is replaced by the
rendered expression; positions that do not start a match are copied
through (the regex engine advances one character at a time). -/
def interpGo (scopes : List JsVal) : List Char → List Char
  | [] => []
  | c :: rest =>
    if c == lbrace then
      match rest with
      | [] => [c]
      | c2 :: rest2 =>
        if c2 == lbrace then
          match tryInline rest2 with
          | some (content, ⟨rest3, _⟩) =>
            (renderExpr scopes (String.mk (jsTrimChars content))).data ++ interpGo scopes rest3
          | none => c :: interpGo scopes (c2 :: rest2)
        else c :: interpGo scopes (c2 :: rest2)
    else c :: interpGo scopes rest
termination_by l => l.length
decreasing_by
  all_goals simp_wf
  all_goals omega

/-- Model of `renderInterpolatedString(template, scopes)`. -/
def renderInterpolatedString (template : String) (scopes : List JsVal) : String :=
  String.mk (interpGo scopes template.data)

/-- Model of `renderCell(cellValue, scopes, options)`.  The `switch` has no
`formula` case, so a whole-cell formula placeholder falls through to the
inline-interpolation path, exactly as in the source.  (Rich-text values
are outside the model; all other non-string values pass through.) -/
def renderCell (cellValue : JsVal) (scopes : List JsVal) (options : RenderOptions) : JsVal :=
  let fallthru : JsVal :=
    match cellValue with
    | .str s =>
      if hasDoubleLbrace s.data then .str (renderInterpolatedString s scopes) else cellValue
    | _ => cellValue
  match detectPlaceholder cellValue with
  | some ph =>
    match ph.type with
    | .value => renderValue ph.path scopes options
    | .join => .str (renderJoin ph.path ph.separator scopes)
    | .table => cellValue
    | .formula => fallthru
  | none => fallthru

/-! ## Worksheet model and table expansion

The worksheet is the capability surface the core consumes: a 1-based list
of rows (each a 0-based list of cell values, index `i` holding column
`i+1`) plus merge boxes `(top, left, bottom, right)`.  Images, styles and
number formats are carried by the container collaborator and are not part
of the value-level model; merge boxes below an insertion point are not
re-shifted (the bottom-to-top processing order never reads them
afterwards). -/

/-- A merge box. -/
structure MergeBox where
  top : Nat
  left : Nat
  bottom : Nat
  right : Nat
deriving DecidableEq

/-- Worksheet model. -/
structure Worksheet where
  rows : List (List JsVal)
  merges : List MergeBox

/-- Model of `getMergeInfo(worksheet, rowNumber, colNumber)`: the first merge box
containing the cell. -/
def getMergeInfo (ws : Worksheet) (rowNumber colNumber : Nat) : Option MergeBox :=
  ws.merges.find? fun m =>
    decide (m.top ≤ rowNumber) && decide (rowNumber ≤ m.bottom) &&
    decide (m.left ≤ colNumber) && decide (colNumber ≤ m.right)

/-- Captured cell template (`CellTemplate` of `types.ts`, restricted to
the value-level fields the expansion reads). -/
structure CellTemplate where
  value : JsVal
  isMerged : Bool
  mergeInfo : Option (Nat × Nat)

/-- Scan the text of one cell for `\x7b\x7b(\w+(?:\.\w+)*)\x7d\x7d` placeholder
paths: the dotted-word tail `(?:\.\w+)*` (with a length bound carried for
termination of the scanner). -/
def wordDotTail : (l : List Char) → List Char × {r : List Char // r.length ≤ l.length}
  | [] => ([], ⟨[], Nat.le_refl 0⟩)
  | c :: rest =>
    if c == '.' ∧ rest.takeWhile wordCharC ≠ [] then
      let w := rest.takeWhile wordCharC
      let r := rest.dropWhile wordCharC
      let p := wordDotTail r
      ('.' :: (w ++ p.1), ⟨p.2.1, by
        have h1 : p.2.1.length ≤ r.length := p.2.2
        have h2 : r.length ≤ rest.length := (List.dropWhile_sublist _).length_le
        simp only [List.length_cons]
        omega⟩)
    else ([], ⟨c :: rest, Nat.le_refl _⟩)
termination_by l => l.length
decreasing_by
  have h2 : (rest.dropWhile wordCharC).length ≤ rest.length :=
    (List.dropWhile_sublist _).length_le
  simp_wf
  omega

/-- One match attempt of the field-placeholder regex right after a doubled
`\x7b`: `\w+(\.\w+)*` then a doubled `\x7d`.  Returns the path and the
remainder. -/
def matchFieldPathAt (l : List Char) : Option (String × {r : List Char // r.length ≤ l.length}) :=
  let w := l.takeWhile wordCharC
  if w = [] then none
  else
    let tail := wordDotTail (l.dropWhile wordCharC)
    match tail.2 with
    | ⟨a1 :: a2 :: rest, hlen⟩ =>
      if a1 == rbrace ∧ a2 == rbrace then
        some (String.mk (w ++ tail.1), ⟨rest, by
          have h2 : (l.dropWhile wordCharC).length ≤ l.length :=
            (List.dropWhile_sublist _).length_le
          simp only [List.length_cons] at hlen
          omega⟩)
      else none
    | _ => none

/-- Scan a whole cell text for field-placeholder paths, in order (the
regex `exec` loop of `extractRowTemplate`). -/
def scanFieldPaths : List Char → List String
  | [] => []
  | c :: rest =>
    if c == lbrace then
      match rest with
      | [] => []
      | c2 :: rest2 =>
        if c2 == lbrace then
          match matchFieldPathAt rest2 with
          | some (p, ⟨rem, _⟩) => p :: scanFieldPaths rem
          | none => scanFieldPaths (c2 :: rest2)
        else scanFieldPaths (c2 :: rest2)
    else scanFieldPaths rest
termination_by l => l.length
decreasing_by
  all_goals simp_wf
  all_goals omega

/-- Last segment of a field path (`fieldPath.split('.').pop()`). -/
def lastSegment (p : String) : String :=
  match (splitDot p.data).getLast? with
  | some seg => String.mk seg
  | none => p

/-- Model of `columnNumberToLetter(num)` digit characters, most significant first
(one loop iteration per character; the next iterate is
`(num - (num-1) % 26) / 26 = (num-1) / 26`). -/
def letterChars : Nat → List Char
  | 0 => []
  | n + 1 => letterChars (n / 26) ++ [Char.ofNat (65 + n % 26)]
decreasing_by
  have := Nat.div_le_self n 26
  omega

/-- Model of `columnNumberToLetter(num)`. -/
def columnNumberToLetter (num : Nat) : String := String.mk (letterChars num)

/-- Model of `columnLetterToNumber(letter)`: uppercases, then folds
`num * 26 + (charCode - 64)`. -/
def columnLetterToNumber (letter : String) : Nat :=
  letter.data.foldl (fun num c => num * 26 + ((jsToUpperChar c).toNat - 64)) 0

/-- The fieldColumnMap insertion for the placeholder paths of one cell:
the full path is `set` unconditionally, its last segment only when the
map does not yet contain it. -/
def fcmAddCell (fcm : List (String × String)) (colNumber : Nat) (cellText : String) :
    List (String × String) :=
  (scanFieldPaths cellText.data).foldl
    (fun m fieldPath =>
      let columnLetter := columnNumberToLetter colNumber
      let m1 := fmSet m fieldPath columnLetter
      let ls := lastSegment fieldPath
      if ls ≠ "" ∧ ¬ fmHas m1 ls then fmSet m1 ls columnLetter else m1)
    fcm

/-- Model of `extractRowTemplate(row, worksheet)`: per-column templates (list index
`i` is column `i+1`) and the field-to-column-letter map.  `eachCell` with
`includeEmpty` visits columns `1 .. cellCount`. -/
def extractRowTemplate (ws : Worksheet) (rowNumber : Nat) :
    List (Option CellTemplate) × List (String × String) :=
  let row := ws.rows.getD (rowNumber - 1) []
  let templates := (row.enum.map fun p =>
    let colNumber := p.1 + 1
    let mi := getMergeInfo ws rowNumber colNumber
    some
      { value := p.2
        isMerged := mi.isSome
        mergeInfo := mi.map fun m => (m.left, m.right) })
  let fcm := (row.enum.foldl
    (fun m p =>
      let cellText : String := match p.2 with | .str s => s | _ => ""
      fcmAddCell m (p.1 + 1) cellText)
    [])
  (templates, fcm)

/-- Model of `extractMergePatternsFromRow(worksheet, rowNumber)`: merge spans whose
master cell lies on the row, scanning columns `1 .. max(cellCount, 20
when empty)` and skipping columns already covered. -/
def extractMergePatternsFromRow (ws : Worksheet) (rowNumber : Nat) : List (Nat × Nat) :=
  let row := ws.rows.getD (rowNumber - 1) []
  let maxCol := if row.length = 0 then 20 else row.length
  ((List.range maxCol).foldl
    (fun acc col0 =>
      let col := col0 + 1
      if acc.2.contains col then acc
      else
        match getMergeInfo ws rowNumber col with
        | some m =>
          if m.top = rowNumber ∧ m.left = col then
            ((m.left, m.right) :: acc.1, acc.2 ++ (List.range' m.left (m.right + 1 - m.left)))
          else acc
        | none => acc)
    (([] : List (Nat × Nat)), ([] : List Nat))).1.reverse

/-- Model of `applyRowTemplate(newRow, templates, scopes, options)`: render each
template cell into the fresh row; within a captured merge span only the
master column is rendered and the whole span is marked processed; columns
without a template (or already processed) stay blank (`null`). -/
def applyRowTemplateGo (scopes : List JsVal) (options : RenderOptions) :
    List (Option CellTemplate) → Nat → List Nat → List JsVal
  | [], _, _ => []
  | t :: rest, colNumber, processed =>
    match t with
    | none => JsVal.null :: applyRowTemplateGo scopes options rest (colNumber + 1) processed
    | some ct =>
      if processed.contains colNumber then
        JsVal.null :: applyRowTemplateGo scopes options rest (colNumber + 1) processed
      else if ct.isMerged then
        match ct.mergeInfo with
        | some (startCol, endCol) =>
          if colNumber = startCol then
            renderCell ct.value scopes options ::
              applyRowTemplateGo scopes options rest (colNumber + 1)
                (processed ++ List.range' startCol (endCol + 1 - startCol))
          else JsVal.null :: applyRowTemplateGo scopes options rest (colNumber + 1) processed
        | none =>
          renderCell ct.value scopes options ::
            applyRowTemplateGo scopes options rest (colNumber + 1) processed
      else
        renderCell ct.value scopes options ::
          applyRowTemplateGo scopes options rest (colNumber + 1) processed

/-- The rendered row produced by `applyRowTemplate` (columns start at 1). -/
def applyRowTemplate (templates : List (Option CellTemplate)) (scopes : List JsVal)
    (options : RenderOptions) : List JsVal :=
  applyRowTemplateGo scopes options templates 1 []

/-- Model of `worksheet.insertRow(pos, [])` followed by filling the new row:
rows at `pos` and below shift down by one. -/
def insertRowAt (ws : Worksheet) (pos : Nat) (row : List JsVal) : Worksheet :=
  { ws with rows := ws.rows.take (pos - 1) ++ [row] ++ ws.rows.drop (pos - 1) }

/-- Model of `applyMergePatternsToRow`: unmerge-then-merge each captured span on the
given row (modelled on the merge-box list; cell values are untouched
because the master column already holds the rendered value and the other
columns are blank). -/
def applyMergePatternsToRow (ws : Worksheet) (rowNumber : Nat) (patterns : List (Nat × Nat)) :
    Worksheet :=
  { ws with
    merges := patterns.foldl
      (fun ms p =>
        let box : MergeBox := ⟨rowNumber, p.1, rowNumber, p.2⟩
        (ms.filter (· ≠ box)) ++ [box])
      ws.merges }

/-- The element loop of `renderTable`: element `i` is rendered with itself
prepended to the scope stack and inserted at `anchorRowIndex + i`. -/
def renderTableLoop (templates : List (Option CellTemplate)) (mergePatterns : List (Nat × Nat))
    (allScopes : List JsVal) (options : RenderOptions) :
    Worksheet → Nat → List JsVal → Worksheet
  | ws, _, [] => ws
  | ws, pos, item :: rest =>
    let newRow := applyRowTemplate templates (item :: allScopes) options
    let ws1 := insertRowAt ws pos newRow
    let ws2 := applyMergePatternsToRow ws1 pos mergePatterns
    renderTableLoop templates mergePatterns allScopes options ws2 (pos + 1) rest

/-- Model of `renderTable(worksheet, anchorRowIndex, arrayPath, scopes, rootData,
printAreaInfo, options)`: result (table info and rows to hide) plus the
mutated worksheet.  Image-anchor adjustment acts on collaborator state
outside this model. -/
def renderTable (ws : Worksheet) (anchorRowIndex : Nat) (arrayPath : String)
    (scopes : List JsVal) (rootData : JsVal) (options : RenderOptions) :
    (Option TInfo × List Nat) × Worksheet :=
  let allScopes := scopes ++ [rootData]
  match resolve arrayPath allScopes with
  | .arr items =>
    let tpl := extractRowTemplate ws (anchorRowIndex + 1)
    let mergePatterns := extractMergePatternsFromRow ws (anchorRowIndex + 1)
    if items.isEmpty then ((none, [anchorRowIndex, anchorRowIndex + 1]), ws)
    else
      let ws2 := renderTableLoop tpl.1 mergePatterns allScopes options ws anchorRowIndex items
      ((some ⟨anchorRowIndex, anchorRowIndex + items.length - 1, arrayPath, tpl.2⟩,
        [anchorRowIndex + items.length, anchorRowIndex + items.length + 1]), ws2)
  | _ => ((none, [anchorRowIndex, anchorRowIndex + 1]), ws)

/-! ## Orchestrator bookkeeping -/

/-- A recorded hide entry of `processWorkbook`. -/
structure HideEntry where
  rows : List Nat
  insertedAt : Nat
  rowsInserted : Nat
deriving DecidableEq

instance : Inhabited HideEntry := ⟨⟨[], 0, 0⟩⟩

/-- Model of `calculateHideOffset(entryIndex, hideEntries)`: the loop runs over the
entries *after* `entryIndex`, adding the insertion counts of those whose
anchor sat above the anchor of the current entry. -/
def calculateHideOffset (entryIndex : Nat) (hideEntries : List HideEntry) : Nat :=
  (hideEntries.drop (entryIndex + 1)).foldl
    (fun offset laterEntry =>
      let currentEntry := hideEntries.getD entryIndex default
      if laterEntry.insertedAt < currentEntry.insertedAt ∧ 0 < laterEntry.rowsInserted then
        offset + laterEntry.rowsInserted
      else offset)
    0

/-- The offset described by the words of the claim: sum over the entries
*before* `entryIndex` in processing order whose anchor sat above the
anchor of the current entry. -/
def claimHideOffset (entryIndex : Nat) (hideEntries : List HideEntry) : Nat :=
  (hideEntries.take entryIndex).foldl
    (fun offset earlierEntry =>
      let currentEntry := hideEntries.getD entryIndex default
      if earlierEntry.insertedAt < currentEntry.insertedAt ∧ 0 < earlierEntry.rowsInserted then
        offset + earlierEntry.rowsInserted
      else offset)
    0

/-- Effect on a tracked row position of performing a sequence of
insertions (each entry inserts `rowsInserted` rows at `insertedAt`; an
insertion at or above the tracked position shifts it down). -/
def applyLaterInsertions (r : Nat) (later : List HideEntry) : Nat :=
  later.foldl (fun pos e => if e.insertedAt ≤ pos then pos + e.rowsInserted else pos) r

/-- JS `Map.set` on the table-info map. -/
def tmSet (m : List (String × TInfo)) (k : String) (v : TInfo) : List (String × TInfo) :=
  match m with
  | [] => [(k, v)]
  | (k', v') :: rest => if k' == k then (k, v) :: rest else (k', v') :: tmSet rest k v

/-- JS `Map.get` on the table-info map (`|| null` is `Option`). -/
def tmGet (m : List (String × TInfo)) (k : String) : Option TInfo :=
  (m.find? fun p => p.1 == k).map (·.2)

/-- The table-processing fold of `processWorkbook` (lines 841–855): keyed
table infos plus the last successful table info. -/
def processTablesFold (results : List (String × Option TInfo)) :
    List (String × TInfo) × Option TInfo :=
  results.foldl
    (fun acc pr =>
      match pr.2 with
      | some ti => (tmSet acc.1 pr.1 ti, some ti)
      | none => acc)
    ([], none)

/-- The table-info selection of the final substitution pass (lines
911–920): explicit column → last table; explicit array path → the info
recorded for that path; bare field name → last table. -/
def selectTableInfo (ph : Placeholder) (tableInfoMap : List (String × TInfo))
    (lastTableInfo : Option TInfo) : Option TInfo :=
  if ph.column ≠ "" then lastTableInfo
  else if ph.arrayPath ≠ "" then tmGet tableInfoMap ph.arrayPath
  else if ph.fieldName ≠ "" then lastTableInfo
  else none

/-- One cell of the final substitution pass (lines 901–935): table anchors
are left untouched, formula placeholders render via `renderFormula` with
the selected table info, and everything else renders via `renderCell`
against the single-scope stack `[data]`. -/
def finalPassCell (data : JsVal) (options : RenderOptions)
    (tableInfoMap : List (String × TInfo)) (lastTableInfo : Option TInfo) (cv : JsVal) : JsVal :=
  match detectPlaceholder cv with
  | none => renderCell cv [data] options
  | some ph =>
    match ph.type with
    | .table => cv
    | .formula =>
      if ph.formulaType ≠ "" then
        renderFormula ph.formulaType ph.column ph.fieldName ph.arrayPath
          (selectTableInfo ph tableInfoMap lastTableInfo) data
      else renderCell cv [data] options
    | _ => renderCell cv [data] options

/-- The final substitution pass over a sequence of cells. -/
def finalPass (data : JsVal) (options : RenderOptions)
    (tableInfoMap : List (String × TInfo)) (lastTableInfo : Option TInfo)
    (cells : List JsVal) : List JsVal :=
  cells.map (finalPassCell data options tableInfoMap lastTableInfo)

/-- The last successful table info in a sequence of per-table results
(what `lastTableInfo` holds after the fold). -/
def lastSuccess (results : List (String × Option TInfo)) : Option TInfo :=
  results.foldl
    (fun acc pr =>
      match pr.2 with
      | some ti => some ti
      | none => acc)
    none

/-- The last successful table info recorded for a given path (what the
`tableInfoMap` entry for that path holds after the fold). -/
def lastSuccessFor (p : String) (results : List (String × Option TInfo)) : Option TInfo :=
  results.foldl
    (fun acc pr =>
      if pr.1 = p then
        match pr.2 with
        | some ti => some ti
        | none => acc
      else acc)
    none

/-- Does the optional value hold a non-empty array? -/
def isNonEmptyArr : Option JsVal → Bool
  | some (.arr xs) => !xs.isEmpty
  | _ => false

/-- Does the optional table info pass the positive start/end row check of
the table branch of `renderFormula`? -/
def validTI : Option TInfo → Bool
  | some t => decide (0 < t.startRow) && decide (0 < t.endRow)
  | none => false

/-- Is the value an in-cell error-marker string (a string prefixed
`#ERROR:`)? -/
def isErrorMarkerV : JsVal → Bool
  | .str s => startsList "#ERROR:".data s.data
  | _ => false

/-! ## Helper lemmas -/

/-- The reduce of `resolve` keeps the first defined value: the fold equals
`findSome?` of `_.get` over the scopes. -/
theorem resolve_foldl_eq_findSome (path : String) :
    ∀ (scopes : List JsVal) (acc : Option JsVal),
      scopes.foldl
        (fun result scope =>
          match result with
          | some v => some v
          | none => jsGet scope path)
        acc =
      (match acc with
       | some v => some v
       | none => scopes.findSome? fun scope => jsGet scope path) := by
  intro scopes
  induction scopes with
  | nil =>
    intro acc
    cases acc <;> simp
  | cons s rest ih =>
    intro acc
    cases acc with
    | some v => simp [ih]
    | none =>
      simp only [List.foldl_cons, List.findSome?_cons, ih]
      cases jsGet s path <;> simp

/-- Lemma: `resolve` is the nullish coalescing of the first defined value. -/
theorem resolve_eq_firstDefined (path : String) (scopes : List JsVal) :
    resolve path scopes = nullishToEmpty (firstDefined path scopes) := by
  unfold resolve firstDefined
  rw [resolve_foldl_eq_findSome]

/-- Nullish coalescing never yields `null`. -/
theorem nullishToEmpty_ne_null (o : Option JsVal) : nullishToEmpty o ≠ JsVal.null := by
  match o with
  | none => simp [nullishToEmpty]
  | some .null => simp [nullishToEmpty]
  | some (.bool b) => simp [nullishToEmpty]
  | some (.num q) => simp [nullishToEmpty]
  | some (.str s) => simp [nullishToEmpty]
  | some (.date ms) => simp [nullishToEmpty]
  | some (.arr xs) => simp [nullishToEmpty]
  | some (.obj fs) => simp [nullishToEmpty]
  | some (.formula f) => simp [nullishToEmpty]

/-- First defined value in a scope stack whose earlier scopes miss. -/
theorem firstDefined_append (path : String) (pre : List JsVal) (s : JsVal)
    (post : List JsVal) (v : JsVal) (hpre : ∀ t ∈ pre, jsGet t path = none)
    (hs : jsGet s path = some v) :
    firstDefined path (pre ++ s :: post) = some v := by
  induction pre with
  | nil => simp [firstDefined, List.findSome?_cons, hs]
  | cons t rest ih =>
    have ht : jsGet t path = none := hpre t (by simp)
    have ih2 := ih fun u hu => hpre u (by simp [hu])
    simpa [firstDefined, List.findSome?_cons, ht] using ih2

/-! ## Claim C7 -/

/-- C7 counterexample: with the single scope `\x7ba: null\x7d` the first
scope in which the path resolves to a defined value holds `null`, yet
`resolve` returns the empty string, not that value — so "resolve returns
the value from the first scope in which the path resolves to a defined
value" fails as stated. -/
theorem resolve_first_defined_cex :
    firstDefined "a" [JsVal.obj [("a", JsVal.null)]] = some JsVal.null ∧
    resolve "a" [JsVal.obj [("a", JsVal.null)]] = JsVal.str "" ∧
    JsVal.str "" ≠ JsVal.null := by
  refine ⟨rfl, rfl, by simp⟩

/-- C7 (amended): `resolve` returns the value from the first scope in
which the path resolves to a defined value, except that a `null` (or
missing-everywhere) result is coerced to the empty string; earlier scopes
shadow later ones (the first defined value is taken regardless of what
later scopes hold). -/
theorem resolve_first_defined_amended :
    (∀ (path : String) (scopes : List JsVal),
      resolve path scopes = nullishToEmpty (firstDefined path scopes)) ∧
    (∀ (path : String) (pre : List JsVal) (s : JsVal) (post : List JsVal) (v : JsVal),
      (∀ t ∈ pre, jsGet t path = none) → jsGet s path = some v →
      resolve path (pre ++ s :: post) = nullishToEmpty (some v)) := by
  constructor
  · exact resolve_eq_firstDefined
  · intro path pre s post v hpre hs
    rw [resolve_eq_firstDefined, firstDefined_append path pre s post v hpre hs]

/-- C7 witness: earlier scope shadows a later scope that also defines the
path — evaluated at a concrete stack. -/
theorem resolve_first_defined_amended_witness :
    resolve "x" [JsVal.obj [("y", JsVal.num 1)], JsVal.obj [("x", JsVal.num 2)],
      JsVal.obj [("x", JsVal.num 3)]] = nullishToEmpty (some (JsVal.num 2)) := by
  exact resolve_first_defined_amended.2 "x" [JsVal.obj [("y", JsVal.num 1)]]
    (JsVal.obj [("x", JsVal.num 2)]) [JsVal.obj [("x", JsVal.num 3)]] (JsVal.num 2)
    (by intro t ht; simp at ht; subst ht; rfl) rfl

/-! ## Claim C10 -/

/-- C10: when the first scope defining the path holds `null`, `resolve`
returns the empty string without falling through to later scopes (a later
non-null value is shadowed), and `resolve` never returns `null`. -/
theorem resolve_null_short_circuit :
    (∀ (path : String) (pre : List JsVal) (s : JsVal) (post : List JsVal),
      (∀ t ∈ pre, jsGet t path = none) → jsGet s path = some JsVal.null →
      resolve path (pre ++ s :: post) = JsVal.str "") ∧
    (∀ (path : String) (scopes : List JsVal), resolve path scopes ≠ JsVal.null) := by
  constructor
  · intro path pre s post hpre hs
    rw [resolve_eq_firstDefined, firstDefined_append path pre s post JsVal.null hpre hs]
    rfl
  · intro path scopes
    rw [resolve_eq_firstDefined]
    exact nullishToEmpty_ne_null _

/-! ## Claim C10 witness and claim C9 -/

/-- C10 witness: a `null` in the first scope shadows a number in the
second; evaluated at a concrete stack. -/
theorem resolve_null_short_circuit_witness :
    resolve "a" [JsVal.obj [("a", JsVal.null)], JsVal.obj [("a", JsVal.num 5)]] =
      JsVal.str "" := by
  exact resolve_null_short_circuit.1 "a" [] (JsVal.obj [("a", JsVal.null)])
    [JsVal.obj [("a", JsVal.num 5)]] (by intro t ht; simp at ht) rfl

/-- The letter produced for `65 + m` survives the uppercase-and-subtract
decoding of `columnLetterToNumber`. -/
theorem jsToUpperChar_letter (m : Nat) (h : m < 26) :
    (jsToUpperChar (Char.ofNat (65 + m))).toNat = 65 + m := by
  interval_cases m <;> decide

/-- Round trip of the bijective base-26 column coding. -/
theorem columnLetter_roundtrip_aux :
    ∀ n : Nat, columnLetterToNumber (columnNumberToLetter n) = n := by
  intro n
  induction n using Nat.strong_induction_on with
  | _ n ih =>
    match n with
    | 0 =>
      unfold columnLetterToNumber columnNumberToLetter
      rw [letterChars]
      rfl
    | k + 1 =>
      have hd : k / 26 < k + 1 := Nat.lt_succ_of_le (Nat.div_le_self k 26)
      have ih2 := ih (k / 26) hd
      have hm : k % 26 < 26 := Nat.mod_lt _ (by omega)
      have hchar := jsToUpperChar_letter (k % 26) hm
      unfold columnLetterToNumber columnNumberToLetter at ih2 ⊢
      rw [letterChars]
      simp only [List.foldl_append, List.foldl_cons, List.foldl_nil] at ih2 ⊢
      rw [ih2, hchar]
      have := Nat.div_add_mod k 26
      omega

/-- C9: converting a positive column number to letters and back yields the
same number. -/
theorem column_letter_roundtrip (n : Nat) (_h : 0 < n) :
    columnLetterToNumber (columnNumberToLetter n) = n :=
  columnLetter_roundtrip_aux n

/-- C9 witness at `702` (= `ZZ`). -/
theorem column_letter_roundtrip_witness :
    0 < 702 ∧ columnLetterToNumber (columnNumberToLetter 702) = 702 :=
  ⟨by norm_num, column_letter_roundtrip 702 (by norm_num)⟩

/-! ## Claim C3 -/

/-- C3 counterexample: for the recorded entries
`[(rows [10,11], insertedAt 10, inserted 2), (rows [5,6], insertedAt 5,
inserted 3)]` (processing order is the list order), the implementation
computed offset for entry 0 sums the *later* entry above it (3), while the claimed
"strictly before it in processing order" sums nothing (0). -/
theorem calculateHideOffset_claim_cex :
    calculateHideOffset 0 [⟨[10, 11], 10, 2⟩, ⟨[5, 6], 5, 3⟩] = 3 ∧
    claimHideOffset 0 [⟨[10, 11], 10, 2⟩, ⟨[5, 6], 5, 3⟩] = 0 ∧
    calculateHideOffset 0 [⟨[10, 11], 10, 2⟩, ⟨[5, 6], 5, 3⟩] ≠
      claimHideOffset 0 [⟨[10, 11], 10, 2⟩, ⟨[5, 6], 5, 3⟩] := by
  refine ⟨rfl, rfl, by decide⟩

/-- The offset fold is the sum of the insertion counts of the qualifying
entries. -/
theorem offset_foldl_sum (c : HideEntry) :
    ∀ (l : List HideEntry) (acc : Nat),
      l.foldl
        (fun off e =>
          if e.insertedAt < c.insertedAt ∧ 0 < e.rowsInserted then off + e.rowsInserted
          else off)
        acc =
      acc + (((l.filter fun e =>
          decide (e.insertedAt < c.insertedAt) && decide (0 < e.rowsInserted)).map
            (·.rowsInserted)).sum) := by
  intro l
  induction l with
  | nil => simp
  | cons e rest ih =>
    intro acc
    by_cases hP : e.insertedAt < c.insertedAt ∧ 0 < e.rowsInserted
    · have hb : (decide (e.insertedAt < c.insertedAt) && decide (0 < e.rowsInserted)) = true := by
        simp [hP.1, hP.2]
      simp only [List.foldl_cons, if_pos hP, ih, List.filter_cons, hb, if_pos, List.map_cons,
        List.sum_cons]
      omega
    · have hb : (decide (e.insertedAt < c.insertedAt) && decide (0 < e.rowsInserted)) = false := by
        rcases not_and_or.mp hP with h | h <;> simp [h]
      simp only [List.foldl_cons, if_neg hP, ih, List.filter_cons, hb]
      simp

/-- When every entry qualifies on position, the offset fold degenerates to
the total insertion count (zero-count entries contribute zero either
way). -/
theorem offset_foldl_all (c : HideEntry) :
    ∀ (l : List HideEntry) (acc : Nat), (∀ e ∈ l, e.insertedAt < c.insertedAt) →
      l.foldl
        (fun off e =>
          if e.insertedAt < c.insertedAt ∧ 0 < e.rowsInserted then off + e.rowsInserted
          else off)
        acc =
      acc + ((l.map (·.rowsInserted)).sum) := by
  intro l
  induction l with
  | nil => simp
  | cons e rest ih =>
    intro acc hall
    have he : e.insertedAt < c.insertedAt := hall e (by simp)
    have ihr := ih (if e.insertedAt < c.insertedAt ∧ 0 < e.rowsInserted then
        acc + e.rowsInserted else acc) fun u hu => hall u (by simp [hu])
    by_cases hpos : 0 < e.rowsInserted
    · simp only [List.foldl_cons, if_pos (And.intro he hpos)] at ihr ⊢
      rw [ihr]
      simp
      omega
    · have hz : e.rowsInserted = 0 := by omega
      have hneg : ¬ (e.insertedAt < c.insertedAt ∧ 0 < e.rowsInserted) := by
        intro hc
        exact hpos hc.2
      simp only [List.foldl_cons, if_neg hneg] at ihr ⊢
      rw [ihr]
      simp [hz]

/-- Shifting a tracked position through insertions that all sit at or
above it adds the total insertion count. -/
theorem applyLaterInsertions_all (bound : Nat) :
    ∀ (l : List HideEntry) (r : Nat), (∀ e ∈ l, e.insertedAt < bound) → bound ≤ r →
      applyLaterInsertions r l = r + ((l.map (·.rowsInserted)).sum) := by
  intro l
  induction l with
  | nil => simp [applyLaterInsertions]
  | cons e rest ih =>
    intro r hall hbr
    have he : e.insertedAt ≤ r := le_of_lt (lt_of_lt_of_le (hall e (by simp)) hbr)
    have ihr := ih (r + e.rowsInserted) (fun u hu => hall u (by simp [hu])) (by omega)
    simp only [applyLaterInsertions, List.foldl_cons, if_pos he] at ihr ⊢
    rw [ihr]
    simp
    omega

/-- C3 (amended): the implemented offset for a hide entry equals the
sum of the row-insertion counts of every other entry whose anchor was
above it (smaller anchor row) and strictly *after* it in processing
order; and for entry lists with strictly descending anchors (as produced
by the bottom-to-top scan), adding this offset is exactly the shift the
insertions of the later entries apply to any row at or below the anchor
of the entry, converting original row numbers into final post-insertion row
numbers. -/
theorem calculateHideOffset_amended :
    (∀ (i : Nat) (es : List HideEntry),
      calculateHideOffset i es =
        (((es.drop (i + 1)).filter fun e =>
            decide (e.insertedAt < (es.getD i default).insertedAt) &&
            decide (0 < e.rowsInserted)).map (·.rowsInserted)).sum) ∧
    (∀ (es : List HideEntry) (i r : Nat),
      es.Pairwise (fun a b => b.insertedAt < a.insertedAt) → i < es.length →
      (es.getD i default).insertedAt ≤ r →
      applyLaterInsertions r (es.drop (i + 1)) = r + calculateHideOffset i es) := by
  have hchar : ∀ (i : Nat) (es : List HideEntry),
      calculateHideOffset i es =
        (((es.drop (i + 1)).filter fun e =>
            decide (e.insertedAt < (es.getD i default).insertedAt) &&
            decide (0 < e.rowsInserted)).map (·.rowsInserted)).sum := by
    intro i es
    unfold calculateHideOffset
    rw [offset_foldl_sum (es.getD i default) (es.drop (i + 1)) 0]
    simp
  refine ⟨hchar, ?_⟩
  intro es i r hpw hi hr
  have hdrop : ∀ e ∈ es.drop (i + 1), e.insertedAt < (es.getD i default).insertedAt := by
    intro e he
    obtain ⟨k, hk, hke⟩ := List.mem_iff_getElem.mp he
    have hklen : i + 1 + k < es.length := by
      have := hk
      simp [List.length_drop] at this
      omega
    have hgd : (es.drop (i + 1))[k] = es[i + 1 + k] := List.getElem_drop es
    have hrel := (List.pairwise_iff_getElem.mp hpw) i (i + 1 + k) hi hklen (by omega)
    rw [List.getD_eq_getElem es default hi]
    rw [← hke, hgd]
    exact hrel
  rw [applyLaterInsertions_all ((es.getD i default).insertedAt) (es.drop (i + 1)) r hdrop hr]
  unfold calculateHideOffset
  rw [offset_foldl_all (es.getD i default) (es.drop (i + 1)) 0 hdrop]
  simp

/-- C3 witness: both parts of the amended statement evaluated on a
concrete strictly-descending entry list. -/
theorem calculateHideOffset_amended_witness :
    (calculateHideOffset 0 [⟨[12, 13], 10, 2⟩, ⟨[7, 8], 5, 3⟩, ⟨[3, 4], 2, 4⟩] =
      ((([⟨[7, 8], 5, 3⟩, (⟨[3, 4], 2, 4⟩ : HideEntry)].filter fun e =>
          decide (e.insertedAt < 10) && decide (0 < e.rowsInserted)).map
            (·.rowsInserted)).sum)) ∧
    applyLaterInsertions 12
        [⟨[7, 8], 5, 3⟩, ⟨[3, 4], 2, 4⟩] =
      12 + calculateHideOffset 0 [⟨[12, 13], 10, 2⟩, ⟨[7, 8], 5, 3⟩, ⟨[3, 4], 2, 4⟩] := by
  constructor
  · exact calculateHideOffset_amended.1 0 [⟨[12, 13], 10, 2⟩, ⟨[7, 8], 5, 3⟩, ⟨[3, 4], 2, 4⟩]
  · exact calculateHideOffset_amended.2 [⟨[12, 13], 10, 2⟩, ⟨[7, 8], 5, 3⟩, ⟨[3, 4], 2, 4⟩] 0 12
      (by decide) (by decide) (by decide)


/-! ## Claim C4 -/

/-- Interaction of `Map.set` and `Map.get` on the table-info map. -/
theorem tmGet_tmSet (m : List (String × TInfo)) (k p : String) (v : TInfo) :
    tmGet (tmSet m k v) p = if p = k then some v else tmGet m p := by
  induction m with
  | nil =>
    simp only [tmSet, tmGet, List.find?]
    by_cases h : p = k
    · subst h
      simp
    · have : (k == p) = false := by simp; intro he; exact h he.symm
      simp [this, h]
  | cons kv rest ih =>
    by_cases hk : kv.1 = k
    · simp only [tmSet, beq_iff_eq, hk, if_pos]
      by_cases hp : p = k
      · subst hp
        simp [tmGet, List.find?]
      · have h1 : (k == p) = false := by simp; intro he; exact hp he.symm
        have h2 : (kv.1 == p) = false := by simp [hk]; intro he; exact hp he.symm
        simp [tmGet, List.find?, h1, h2, hp]
    · simp only [tmSet, beq_iff_eq, hk, if_neg, not_false_iff]
      by_cases hp : p = kv.1
      · have hpk : ¬ p = k := by rw [hp]; exact fun he => hk he
        have h2 : (kv.1 == p) = true := by simp [hp]
        simp [tmGet, List.find?, h2, hpk]
      · have h2 : (kv.1 == p) = false := by simp; intro he; exact hp he.symm
        simp only [tmGet, List.find?, h2] at ih ⊢
        simpa [tmGet] using ih

/-- Lookup in the map built by the table fold equals the last successful
table info recorded for that path, for any starting accumulator. -/
theorem processTablesFold_get_aux (p : String) :
    ∀ (rs : List (String × Option TInfo)) (m : List (String × TInfo)) (l : Option TInfo),
      tmGet (rs.foldl
        (fun acc pr =>
          match pr.2 with
          | some ti => (tmSet acc.1 pr.1 ti, some ti)
          | none => acc)
        (m, l)).1 p =
      rs.foldl
        (fun acc pr =>
          if pr.1 = p then
            match pr.2 with
            | some ti => some ti
            | none => acc
          else acc)
        (tmGet m p) := by
  intro rs
  induction rs with
  | nil => intro m l; rfl
  | cons pr rest ih =>
    intro m l
    match hpr : pr.2 with
    | none =>
      simp only [List.foldl_cons, hpr]
      rw [ih m l]
      congr 1
      by_cases hp : pr.1 = p <;> simp [hp]
    | some ti =>
      simp only [List.foldl_cons, hpr]
      rw [ih (tmSet m pr.1 ti) (some ti)]
      rw [tmGet_tmSet m pr.1 p ti]
      congr 1
      by_cases hp : pr.1 = p
      · simp [hp]
      · have : ¬ p = pr.1 := fun he => hp he.symm
        simp [hp, this]

/-- The `tableInfoMap` entry for a path after the table fold is the last
successful expansion recorded under exactly that path. -/
theorem processTablesFold_get (p : String) (rs : List (String × Option TInfo)) :
    tmGet (processTablesFold rs).1 p = lastSuccessFor p rs := by
  unfold processTablesFold lastSuccessFor
  rw [processTablesFold_get_aux p rs [] none]
  rfl

/-- The `lastTableInfo` accumulator is independent of the map component. -/
theorem processTablesFold_snd_aux :
    ∀ (rs : List (String × Option TInfo)) (m : List (String × TInfo)) (l : Option TInfo),
      (rs.foldl
        (fun acc pr =>
          match pr.2 with
          | some ti => (tmSet acc.1 pr.1 ti, some ti)
          | none => acc)
        (m, l)).2 =
      rs.foldl
        (fun acc pr =>
          match pr.2 with
          | some ti => some ti
          | none => acc)
        l := by
  intro rs
  induction rs with
  | nil => intro m l; rfl
  | cons pr rest ih =>
    intro m l
    match hpr : pr.2 with
    | none => simp only [List.foldl_cons, hpr]; exact ih m l
    | some ti => simp only [List.foldl_cons, hpr]; exact ih (tmSet m pr.1 ti) (some ti)

/-- The `lastTableInfo` accumulator after the table fold is the last successful expansion
in processing order. -/
theorem processTablesFold_snd (rs : List (String × Option TInfo)) :
    (processTablesFold rs).2 = lastSuccess rs := by
  unfold processTablesFold lastSuccess
  exact processTablesFold_snd_aux rs [] none

/-- The fallback switch never yields a formula object. -/
theorem aggregateFallback_ne_formula (ft : String) (vs : List ℚ) (f : String) :
    aggregateFallback ft vs ≠ JsVal.formula f := by
  unfold aggregateFallback
  repeat' split
  all_goals simp

/-- Without table info, `renderFormula` is a direct data computation: it
never yields a formula object. -/
theorem renderFormula_none_ne_formula (ft fn ap : String) (d : JsVal) (f : String) :
    renderFormula ft "" fn ap none d ≠ JsVal.formula f := by
  unfold renderFormula
  simp only []
  split
  · simp
  · split
    · split
      · simp
      · split
        · simp
        · exact aggregateFallback_ne_formula ft _ f
    · simp

/-- C4: in the final substitution pass, a formula placeholder with a
non-empty `arrayPath` always resolves to the table info recorded for
exactly that path (the last success for it), unaffected by results for
other paths appended afterward (and by failed re-expansions of the same
path); a bare column letter or bare field name always uses the most
recently successfully expanded table; with no table info the rendering is
the direct data-fallback computation, never a formula object. -/
theorem formula_targeting_precedence :
    (∀ (results : List (String × Option TInfo)) (ph : Placeholder),
      ph.column ≠ "" →
      selectTableInfo ph (processTablesFold results).1 (processTablesFold results).2 =
        lastSuccess results) ∧
    (∀ (results : List (String × Option TInfo)) (ph : Placeholder),
      ph.column = "" → ph.arrayPath ≠ "" →
      selectTableInfo ph (processTablesFold results).1 (processTablesFold results).2 =
        lastSuccessFor ph.arrayPath results) ∧
    (∀ (results : List (String × Option TInfo)) (p q : String) (o : Option TInfo),
      q ≠ p → lastSuccessFor p (results ++ [(q, o)]) = lastSuccessFor p results) ∧
    (∀ (results : List (String × Option TInfo)) (p : String),
      lastSuccessFor p (results ++ [(p, none)]) = lastSuccessFor p results) ∧
    (∀ (results : List (String × Option TInfo)) (ph : Placeholder),
      ph.column = "" → ph.arrayPath = "" → ph.fieldName ≠ "" →
      selectTableInfo ph (processTablesFold results).1 (processTablesFold results).2 =
        lastSuccess results) ∧
    (∀ (ft fn ap : String) (d : JsVal) (f : String),
      renderFormula ft "" fn ap none d ≠ JsVal.formula f) := by
  refine ⟨?_, ?_, ?_, ?_, ?_, ?_⟩
  · intro rs ph hcol
    rw [selectTableInfo, if_pos hcol]
    exact processTablesFold_snd rs
  · intro rs ph hcol hap
    rw [selectTableInfo, if_neg (by simpa using hcol), if_pos hap]
    exact processTablesFold_get ph.arrayPath rs
  · intro rs p q o hqp
    unfold lastSuccessFor
    rw [List.foldl_append]
    simp [hqp]
  · intro rs p
    unfold lastSuccessFor
    rw [List.foldl_append]
    simp
  · intro rs ph hcol hap hfn
    rw [selectTableInfo, if_neg (by simpa using hcol), if_neg (by simpa using hap), if_pos hfn]
    exact processTablesFold_snd rs
  · exact renderFormula_none_ne_formula

/-- C4 witness: an explicit-path placeholder picks the info of its own path
even though another table expanded after it, and a column-letter
placeholder picks the last success — evaluated on concrete results. -/
theorem formula_targeting_precedence_witness :
    selectTableInfo ⟨.formula, "items.price", "", "SUM", "", "items", "price"⟩
        (processTablesFold [("other", some ⟨5, 6, "other", []⟩),
          ("items", some ⟨1, 2, "items", []⟩), ("later", some ⟨9, 9, "later", []⟩)]).1
        (processTablesFold [("other", some ⟨5, 6, "other", []⟩),
          ("items", some ⟨1, 2, "items", []⟩), ("later", some ⟨9, 9, "later", []⟩)]).2 =
      lastSuccessFor "items" [("other", some ⟨5, 6, "other", []⟩),
        ("items", some ⟨1, 2, "items", []⟩), ("later", some ⟨9, 9, "later", []⟩)] ∧
    selectTableInfo ⟨.formula, "", "", "SUM", "C", "", ""⟩
        (processTablesFold [("items", some ⟨1, 2, "items", []⟩)]).1
        (processTablesFold [("items", some ⟨1, 2, "items", []⟩)]).2 =
      lastSuccess [("items", some ⟨1, 2, "items", []⟩)] := by
  constructor
  · exact formula_targeting_precedence.2.1 _ _ (by decide) (by decide)
  · exact formula_targeting_precedence.1 _ _ (by decide)

/-! ## Claim C1 -/

/-- C1: the final substitution pass is total and cell-local — it
processes every cell (same length, no abort), each output cell depends
only on the corresponding input cell, replacing one cell never changes
the output of any other cell, and a cell whose formula resolution fails
renders as an in-cell `#ERROR:` marker while its neighbours render
normally (every in-core failure mode is a returned error string, so there
is no exception that could propagate out of a cell). -/
theorem finalPass_partial_failure :
    (∀ (data : JsVal) (options : RenderOptions) (tmap : List (String × TInfo))
        (lt : Option TInfo) (cells : List JsVal),
      (finalPass data options tmap lt cells).length = cells.length) ∧
    (∀ (data : JsVal) (options : RenderOptions) (tmap : List (String × TInfo))
        (lt : Option TInfo) (cells : List JsVal) (i : Nat), i < cells.length →
      (finalPass data options tmap lt cells).getD i JsVal.null =
        finalPassCell data options tmap lt (cells.getD i JsVal.null)) ∧
    (∀ (data : JsVal) (options : RenderOptions) (tmap : List (String × TInfo))
        (lt : Option TInfo) (cells : List JsVal) (i j : Nat) (c : JsVal), j ≠ i →
      (finalPass data options tmap lt (cells.set i c)).getD j JsVal.null =
        (finalPass data options tmap lt cells).getD j JsVal.null) ∧
    finalPass (.obj [("name", .str "Jo")]) ⟨false⟩ [] none
        [.str "\x7b\x7bname\x7d\x7d", .str "\x7b\x7b#formula SUM items\x7d\x7d", .str "plain"] =
      [.str "Jo", .str errNoTableOrPath, .str "plain"] := by
  refine ⟨?_, ?_, ?_, ?_⟩
  · intro data options tmap lt cells
    simp [finalPass]
  · intro data options tmap lt cells i h
    simp only [finalPass, List.getD_eq_getElem?_getD, List.getElem?_map,
      List.getElem?_eq_getElem h]
    rfl
  · intro data options tmap lt cells i j c hji
    simp only [finalPass, List.getD_eq_getElem?_getD, List.getElem?_map]
    rw [List.getElem?_set_ne (fun he => hji he.symm)]
  · rfl

/-- C1 witness: length preservation and one-cell-replacement independence
evaluated on a concrete cell list. -/
theorem finalPass_partial_failure_witness :
    (finalPass (JsVal.obj []) ⟨false⟩ [] none [JsVal.str "a", JsVal.str "b"]).length = 2 ∧
    (finalPass (JsVal.obj []) ⟨false⟩ [] none
        ([JsVal.str "a", JsVal.str "b"].set 0 (JsVal.str "x"))).getD 1 JsVal.null =
      (finalPass (JsVal.obj []) ⟨false⟩ [] none [JsVal.str "a", JsVal.str "b"]).getD 1
        JsVal.null := by
  constructor
  · exact finalPass_partial_failure.1 (JsVal.obj []) ⟨false⟩ [] none
      [JsVal.str "a", JsVal.str "b"]
  · exact finalPass_partial_failure.2.2.1 (JsVal.obj []) ⟨false⟩ [] none
      [JsVal.str "a", JsVal.str "b"] 0 1 (JsVal.str "x") (by norm_num)

/-! ## Claim C2 -/

/-- C2 counterexample: with a valid table info supplied, `renderFormula`
on the unknown type `MEDIAN` returns a formula object with the unknown
type embedded (`MEDIAN(C5:C10)`), not an `#ERROR:`-prefixed string — the
table-referencing branch performs no formula-type check, so the claimed
"identical in both branches" error-marker behaviour fails there. -/
theorem renderFormula_unknown_type_table_cex :
    renderFormula "MEDIAN" "C" "" "" (some ⟨5, 10, "items", []⟩) (JsVal.obj []) =
      JsVal.formula "MEDIAN(C5:C10)" ∧
    isErrorMarkerV
      (renderFormula "MEDIAN" "C" "" "" (some ⟨5, 10, "items", []⟩) (JsVal.obj [])) =
      false := by
  exact ⟨rfl, rfl⟩

/-- C2 (amended): for a formula type outside the five supported
aggregates, the data-fallback branch of `renderFormula` (no table
context, both path parts present, and a non-empty coerced value list)
returns the `#ERROR:` unknown-formula-type marker string rather than
throwing; the table-referencing branch instead interpolates the unknown
type unchecked into a returned formula object. -/
theorem renderFormula_unknown_type_amended :
    (∀ (ft : String), formulaTypeWords.contains ft = false →
      ∀ (ti : TInfo) (col fn ap : String) (data : JsVal),
        0 < ti.startRow → 0 < ti.endRow → col ≠ "" →
        renderFormula ft col fn ap (some ti) data =
          JsVal.formula (ft ++ "(" ++ col ++ toString ti.startRow ++ ":" ++ col ++
            toString ti.endRow ++ ")")) ∧
    (∀ (ft : String), formulaTypeWords.contains ft = false →
      ∀ (fn ap : String) (data : JsVal) (xs : List JsVal),
        ap ≠ "" → fn ≠ "" → jsGet data ap = some (JsVal.arr xs) →
        coerceFieldNums xs fn ≠ [] →
        renderFormula ft "" fn ap none data = JsVal.str (errUnknownFormulaType ft)) := by
  constructor
  · intro ft hft ti col fn ap data hs he hcol
    simp [renderFormula, hs, he, hcol]
  · intro ft hft fn ap data xs hap hfn hget hvals
    simp only [formulaTypeWords] at hft
    simp at hft
    have hxs : xs.isEmpty = false := by
      cases xs with
      | nil => exact absurd rfl hvals
      | cons a rest => rfl
    simp [renderFormula, hap, hfn, hget, hxs, hvals, aggregateFallback,
      hft.1, hft.2.1, hft.2.2.1, hft.2.2.2.1, hft.2.2.2.2]

/-- C2 witness: both amended branches evaluated at the unknown type
`MEDIAN`. -/
theorem renderFormula_unknown_type_amended_witness :
    renderFormula "MEDIAN" "D" "" "" (some ⟨3, 7, "t", []⟩) (JsVal.obj []) =
      JsVal.formula ("MEDIAN" ++ "(" ++ "D" ++ toString (3 : Nat) ++ ":" ++ "D" ++
        toString (7 : Nat) ++ ")") ∧
    renderFormula "MEDIAN" "" "v" "xs" none
        (JsVal.obj [("xs", JsVal.arr [JsVal.obj [("v", JsVal.num 1)]])]) =
      JsVal.str (errUnknownFormulaType "MEDIAN") := by
  constructor
  · exact renderFormula_unknown_type_amended.1 "MEDIAN" (by decide) ⟨3, 7, "t", []⟩ "D" "" ""
      (JsVal.obj []) (by norm_num) (by norm_num) (by decide)
  · exact renderFormula_unknown_type_amended.2 "MEDIAN" (by decide) "v" "xs"
      (JsVal.obj [("xs", JsVal.arr [JsVal.obj [("v", JsVal.num 1)]])])
      [JsVal.obj [("v", JsVal.num 1)]] (by decide) (by decide) rfl (by decide)

/-! ## Claim C6 -/

/-- Evaluating `Number` on a non-empty all-digit string is its decimal value (in
particular leading zeros are dropped). -/
theorem jsNumCore_all_digits (l : List Char) (hne : l ≠ []) (hall : l.all isDigitC = true) :
    jsNumCore l = some ((digitsToNat l : ℚ)) := by
  match l with
  | c :: rest =>
    have hc : isDigitC c = true := List.all_eq_true.mp hall c (by simp)
    have hm : (c == '-') = false := by
      cases hb : (c == '-') with
      | false => rfl
      | true =>
        have he : c = '-' := by simpa using hb
        rw [he] at hc
        exact absurd hc (by decide)
    have hp : (c == '+') = false := by
      cases hb : (c == '+') with
      | false => rfl
      | true =>
        have he : c = '+' := by simpa using hb
        rw [he] at hc
        exact absurd hc (by decide)
    have htw : (c :: rest).takeWhile isDigitC = c :: rest := by
      rw [List.takeWhile_eq_self_iff]
      exact fun a ha => List.all_eq_true.mp hall a ha
    have hdw : (c :: rest).dropWhile isDigitC = [] := by
      rw [List.dropWhile_eq_nil_iff]
      exact fun a ha => List.all_eq_true.mp hall a ha
    unfold jsNumCore
    simp only [hm, hp, Bool.false_eq_true, if_false, htw, hdw]
    rw [if_neg (by simp)]
    simp [decValue]

/-- C6: without a valid table context but with both `arrayPath` and
`fieldName`, `renderFormula` resolves the array path against the root
data object directly; anything other than a non-empty array yields the
number `0`; otherwise the field of each element is coerced (numbers pass,
non-blank numeric strings convert, the rest are discarded) and
aggregated — in particular `SUM items.price` over
`[\x7bprice:10\x7d,\x7bprice:20\x7d,\x7bprice:30\x7d]` with no table
yields the literal number `60`, and the mixed-type coercion keeps `10`
and `"5"` while discarding `true` and `"x"`. -/
theorem renderFormula_fallback_direct :
    (∀ (ft fn ap : String) (ti : Option TInfo) (data : JsVal),
      validTI ti = false → ap ≠ "" → fn ≠ "" → isNonEmptyArr (jsGet data ap) = false →
      renderFormula ft "" fn ap ti data = JsVal.num 0) ∧
    (∀ (ft fn ap : String) (ti : Option TInfo) (data : JsVal) (xs : List JsVal),
      validTI ti = false → ap ≠ "" → fn ≠ "" → jsGet data ap = some (JsVal.arr xs) →
      xs ≠ [] → coerceFieldNums xs fn ≠ [] →
      renderFormula ft "" fn ap ti data = aggregateFallback ft (coerceFieldNums xs fn)) ∧
    renderFormula "SUM" "" "price" "items" none
        (JsVal.obj [("items", JsVal.arr [JsVal.obj [("price", JsVal.num 10)],
          JsVal.obj [("price", JsVal.num 20)], JsVal.obj [("price", JsVal.num 30)]])]) =
      JsVal.num 60 ∧
    coerceFieldNums [JsVal.obj [("v", JsVal.num 10)], JsVal.obj [("v", JsVal.str "5")],
        JsVal.obj [("v", JsVal.bool true)], JsVal.obj [("v", JsVal.str "x")]] "v" =
      [10, 5] := by
  have htb : ∀ (ft fn ap : String) (ti : Option TInfo) (data : JsVal),
      validTI ti = false →
      renderFormula ft "" fn ap ti data = renderFormula ft "" fn ap none data := by
    intro ft fn ap ti data hti
    match ti with
    | none => rfl
    | some t =>
      simp only [validTI, Bool.and_eq_false_iff, decide_eq_false_iff_not] at hti
      unfold renderFormula
      simp only []
      rcases hti with h | h
      · rw [if_neg (fun hc => absurd hc.1 h)]
      · rw [if_neg (fun hc => absurd hc.2 h)]
  have hcompute : ∀ (ft fn ap : String) (ti : Option TInfo) (data : JsVal) (xs : List JsVal),
      validTI ti = false → ap ≠ "" → fn ≠ "" → jsGet data ap = some (JsVal.arr xs) →
      xs ≠ [] → coerceFieldNums xs fn ≠ [] →
      renderFormula ft "" fn ap ti data = aggregateFallback ft (coerceFieldNums xs fn) := by
    intro ft fn ap ti data xs hti hap hfn hget hxs hvals
    rw [htb ft fn ap ti data hti]
    unfold renderFormula
    simp only []
    rw [if_neg (by intro hc; rcases hc with h | h; exact hap h; exact hfn h)]
    have hxe : xs.isEmpty = false := by
      cases xs with
      | nil => exact absurd rfl hxs
      | cons a rest => rfl
    simp [hget, hxe, hvals]
  refine ⟨?_, hcompute, ?_, ?_⟩
  · intro ft fn ap ti data hti hap hfn hne
    rw [htb ft fn ap ti data hti]
    unfold renderFormula
    simp only []
    rw [if_neg (by intro hc; rcases hc with h | h; exact hap h; exact hfn h)]
    match hget : jsGet data ap with
    | none => rfl
    | some (.arr xs) =>
      rw [hget] at hne
      simp only [isNonEmptyArr, Bool.not_eq_false'] at hne
      simp [hne]
    | some .null => rfl
    | some (.bool b) => rfl
    | some (.num q) => rfl
    | some (.str s) => rfl
    | some (.date ms) => rfl
    | some (.obj fs) => rfl
    | some (.formula f) => rfl
  · have hc : coerceFieldNums [JsVal.obj [("price", JsVal.num 10)],
        JsVal.obj [("price", JsVal.num 20)], JsVal.obj [("price", JsVal.num 30)]] "price" =
        [10, 20, 30] := rfl
    rw [hcompute "SUM" "price" "items" none
      (JsVal.obj [("items", JsVal.arr [JsVal.obj [("price", JsVal.num 10)],
        JsVal.obj [("price", JsVal.num 20)], JsVal.obj [("price", JsVal.num 30)]])])
      [JsVal.obj [("price", JsVal.num 10)], JsVal.obj [("price", JsVal.num 20)],
        JsVal.obj [("price", JsVal.num 30)]]
      rfl (by decide) (by decide) rfl (by simp) (by rw [hc]; simp), hc]
    show aggregateFallback "SUM" [10, 20, 30] = JsVal.num 60
    simp [aggregateFallback]
    norm_num [qSum]
  · have h5 : jsNumber "5" = some 5 := by
      have h := jsNumCore_all_digits "5".data (by decide) (by decide)
      have ht : jsTrimChars "5".data = "5".data := by decide
      unfold jsNumber
      rw [ht, if_neg (by decide), h]
      norm_num
      decide
    have hx : jsNumber "x" = none := by decide
    have e1 : jsGet (JsVal.obj [("v", JsVal.num 10)]) "v" = some (JsVal.num 10) := rfl
    have e2 : jsGet (JsVal.obj [("v", JsVal.str "5")]) "v" = some (JsVal.str "5") := rfl
    have e3 : jsGet (JsVal.obj [("v", JsVal.bool true)]) "v" = some (JsVal.bool true) := rfl
    have e4 : jsGet (JsVal.obj [("v", JsVal.str "x")]) "v" = some (JsVal.str "x") := rfl
    have ht5 : jsTrimChars "5".data ≠ [] := by decide
    have htx : jsTrimChars "x".data ≠ [] := by decide
    simp [coerceFieldNums, e1, e2, e3, e4, h5, hx, ht5, htx]

/-- C6 witness: a path that does not resolve to a non-empty array falls
back to the number `0` — evaluated at concrete data. -/
theorem renderFormula_fallback_direct_witness :
    renderFormula "SUM" "" "price" "orders" none (JsVal.obj []) = JsVal.num 0 := by
  exact renderFormula_fallback_direct.1 "SUM" "price" "orders" none (JsVal.obj [])
    rfl (by decide) (by decide) rfl

/-! ## Claim C8 -/

/-- A digit character is never a given non-digit character. -/
theorem digit_beq_false (c d : Char) (hc : isDigitC c = true) (hd : isDigitC d = false) :
    (c == d) = false := by
  cases hb : (c == d) with
  | false => rfl
  | true =>
    have he : c = d := by simpa using hb
    rw [he] at hc
    rw [hc] at hd
    exact absurd hd (by simp)

/-- A string accepted by the numeric parser can never match the strict
ISO date pattern (its fifth character would have to be a dash where the
number grammar allows only a fraction dot, an exponent `e`/`E`, or the
end). -/
theorem jsNumCore_not_isoDate (l : List Char) (q : ℚ) (h : jsNumCore l = some q) :
    isoDateShape l = false := by
  cases hshape : isoDateShape l with
  | false => rfl
  | true =>
    exfalso
    unfold isoDateShape at hshape
    split at hshape
    case h_2 => exact absurd hshape (by simp)
    case h_1 y1 y2 y3 y4 rest =>
      simp only [Bool.and_eq_true] at hshape
      obtain ⟨⟨⟨⟨hd1, hd2⟩, hd3⟩, hd4⟩, hmonth⟩ := hshape
      unfold isoMonthShape at hmonth
      split at hmonth
      case h_2 => exact absurd hmonth (by simp)
      case h_1 c m1 m2 rest2 =>
        simp only [Bool.and_eq_true, beq_iff_eq] at hmonth
        obtain ⟨⟨⟨hdash, _⟩, _⟩, _⟩ := hmonth
        subst hdash
        have hdd : isDigitC '-' = false := by decide
        have hs1 : (y1 == '-') = false := digit_beq_false y1 '-' hd1 hdd
        have hs2 : (y1 == '+') = false := digit_beq_false y1 '+' hd1 (by decide)
        unfold jsNumCore at h
        simp only [hs1, hs2, Bool.false_eq_true, if_false, List.takeWhile_cons, hd1, hd2, hd3,
          hd4, if_true, hdd, List.dropWhile_cons, if_false] at h
        simp at h

/-- C8: rendering a cell whose resolved value is a numeric string
without `autoParseNumbers` preserves the original string exactly
(leading zeros included, since a numeric string can never take the ISO
date branch); with `autoParseNumbers` the result is the number the
string parses to (leading zeros lost). -/
theorem renderValue_numeric_string_roundtrip :
    ∀ (path : String) (scopes : List JsVal) (s : String) (q : ℚ),
      resolve path scopes = JsVal.str s →
      jsNumCore (jsTrimChars s.data) = some q →
      renderValue path scopes ⟨false⟩ = JsVal.str s ∧
      renderValue path scopes ⟨true⟩ = JsVal.num q := by
  intro path scopes s q hres hq
  have hne : jsTrimChars s.data ≠ [] := by
    intro he
    rw [he] at hq
    rw [show jsNumCore [] = none from rfl] at hq
    exact absurd hq (by simp)
  have hiso : isoDateShape (jsTrimChars s.data) = false := jsNumCore_not_isoDate _ q hq
  constructor
  · unfold renderValue
    rw [hres]
    simp only []
    rw [if_neg hne, if_neg (by simp)]
    rw [hiso]
    simp
  · unfold renderValue
    rw [hres]
    simp only []
    rw [if_neg hne, if_pos (by refine ⟨by trivial, ?_⟩; rw [hq]; rfl), hq]
    rfl

/-- C8 witness: the leading-zero string `"00501"` is preserved exactly
without the option and becomes the number `501` with it. -/
theorem renderValue_numeric_string_roundtrip_witness :
    renderValue "zip" [JsVal.obj [("zip", JsVal.str "00501")]] ⟨false⟩ =
      JsVal.str "00501" ∧
    renderValue "zip" [JsVal.obj [("zip", JsVal.str "00501")]] ⟨true⟩ =
      JsVal.num 501 := by
  have hq : jsNumCore (jsTrimChars "00501".data) = some 501 := by
    have ht : jsTrimChars "00501".data = "00501".data := by decide
    rw [ht, jsNumCore_all_digits "00501".data (by decide) (by decide)]
    have hd : digitsToNat "00501".data = 501 := by decide
    rw [hd]
    norm_num
  exact renderValue_numeric_string_roundtrip "zip" [JsVal.obj [("zip", JsVal.str "00501")]]
    "00501" 501 rfl hq

/-! ## Claim C5 -/

/-- The element-insertion loop of `renderTable` places the rendered rows
(in element order) at the anchor position, pushing the previous contents
of that position downward. -/
theorem renderTableLoop_rows (templates : List (Option CellTemplate))
    (mergePatterns : List (Nat × Nat)) (allScopes : List JsVal) (options : RenderOptions) :
    ∀ (items : List JsVal) (ws : Worksheet) (pos : Nat), 1 ≤ pos →
      pos - 1 ≤ ws.rows.length →
      (renderTableLoop templates mergePatterns allScopes options ws pos items).rows =
        ws.rows.take (pos - 1) ++
          items.map (fun item => applyRowTemplate templates (item :: allScopes) options) ++
          ws.rows.drop (pos - 1) := by
  intro items
  induction items with
  | nil =>
    intro ws pos hpos hlen
    simp [renderTableLoop]
  | cons item rest ih =>
    intro ws pos hpos hlen
    set r := applyRowTemplate templates (item :: allScopes) options with hr
    set A := ws.rows.take (pos - 1) with hA
    set B := ws.rows.drop (pos - 1) with hB
    have hAlen : A.length = pos - 1 := by
      simp [hA]
      omega
    have hws2 : (applyMergePatternsToRow (insertRowAt ws pos r) pos mergePatterns).rows =
        A ++ [r] ++ B := by
      simp [applyMergePatternsToRow, insertRowAt, hA, hB]
    have hstep : renderTableLoop templates mergePatterns allScopes options ws pos
        (item :: rest) =
        renderTableLoop templates mergePatterns allScopes options
          (applyMergePatternsToRow (insertRowAt ws pos r) pos mergePatterns) (pos + 1) rest := by
      rfl
    have hlen2 : (pos + 1) - 1 ≤
        (applyMergePatternsToRow (insertRowAt ws pos r) pos mergePatterns).rows.length := by
      rw [hws2]
      simp
      have hBlen : B.length = ws.rows.length - (pos - 1) := by simp [hB]
      omega
    rw [hstep, ih _ (pos + 1) (by omega) hlen2, hws2]
    have htake : (A ++ [r] ++ B).take (pos + 1 - 1) = A ++ [r] := by
      rw [List.append_assoc, List.take_append_eq_append_take]
      have h1 : A.take (pos + 1 - 1) = A := List.take_of_length_le (by omega)
      have h2 : pos + 1 - 1 - A.length = 1 := by omega
      rw [h1, h2]
      simp
    have hdrop : (A ++ [r] ++ B).drop (pos + 1 - 1) = B := by
      rw [List.append_assoc, List.drop_append_eq_append_drop]
      have h1 : A.drop (pos + 1 - 1) = [] := List.drop_eq_nil_of_le (by omega)
      have h2 : pos + 1 - 1 - A.length = 1 := by omega
      rw [h1, h2]
      simp
    rw [htake, hdrop]
    simp

/-- C5: expanding a non-empty array of `N` elements inserts exactly `N`
rows, one per element in element order, each populated from the template
row (row `anchor+1`) with the element prepended to the scope stack; the
reported occupied range is `[anchor, anchor+N-1]`, and the rows scheduled
for hiding are the pushed-down anchor and template rows `anchor+N` and
`anchor+N+1`. -/
theorem renderTable_expansion :
    ∀ (ws : Worksheet) (anchor : Nat) (arrayPath : String) (scopes : List JsVal)
      (rootData : JsVal) (options : RenderOptions) (items : List JsVal),
      1 ≤ anchor → anchor - 1 ≤ ws.rows.length →
      resolve arrayPath (scopes ++ [rootData]) = JsVal.arr items → items ≠ [] →
      (renderTable ws anchor arrayPath scopes rootData options).1.1 =
        some ⟨anchor, anchor + items.length - 1, arrayPath,
          (extractRowTemplate ws (anchor + 1)).2⟩ ∧
      (renderTable ws anchor arrayPath scopes rootData options).1.2 =
        [anchor + items.length, anchor + items.length + 1] ∧
      (renderTable ws anchor arrayPath scopes rootData options).2.rows =
        ws.rows.take (anchor - 1) ++
          items.map (fun item =>
            applyRowTemplate (extractRowTemplate ws (anchor + 1)).1
              (item :: (scopes ++ [rootData])) options) ++
          ws.rows.drop (anchor - 1) ∧
      (renderTable ws anchor arrayPath scopes rootData options).2.rows.length =
        ws.rows.length + items.length := by
  intro ws anchor arrayPath scopes rootData options items hanchor hbound hres hne
  have hie : items.isEmpty = false := by
    cases items with
    | nil => exact absurd rfl hne
    | cons a rest => rfl
  have hrt : renderTable ws anchor arrayPath scopes rootData options =
      ((some ⟨anchor, anchor + items.length - 1, arrayPath,
          (extractRowTemplate ws (anchor + 1)).2⟩,
        [anchor + items.length, anchor + items.length + 1]),
       renderTableLoop (extractRowTemplate ws (anchor + 1)).1
         (extractMergePatternsFromRow ws (anchor + 1)) (scopes ++ [rootData]) options
         ws anchor items) := by
    unfold renderTable
    simp only [hres, hie, Bool.false_eq_true, if_false]
  have hrows := renderTableLoop_rows (extractRowTemplate ws (anchor + 1)).1
    (extractMergePatternsFromRow ws (anchor + 1)) (scopes ++ [rootData]) options
    items ws anchor hanchor hbound
  refine ⟨by rw [hrt], by rw [hrt], ?_, ?_⟩
  · rw [hrt]
    exact hrows
  · rw [hrt]
    simp only [hrows]
    simp [List.length_append, List.length_take, List.length_drop]
    omega

/-- C5 witness: a two-element table on a concrete two-row sheet hides the
pushed-down rows `3` and `4`, and the sheet grows by two rows. -/
theorem renderTable_expansion_witness :
    (renderTable ⟨[[JsVal.str "\x7b\x7b#table items\x7d\x7d"],
        [JsVal.str "\x7b\x7bname\x7d\x7d"]], []⟩ 1 "items" []
        (JsVal.obj [("items", JsVal.arr [JsVal.obj [("name", JsVal.str "A")],
          JsVal.obj [("name", JsVal.str "B")]])]) ⟨false⟩).1.2 = [3, 4] ∧
    (renderTable ⟨[[JsVal.str "\x7b\x7b#table items\x7d\x7d"],
        [JsVal.str "\x7b\x7bname\x7d\x7d"]], []⟩ 1 "items" []
        (JsVal.obj [("items", JsVal.arr [JsVal.obj [("name", JsVal.str "A")],
          JsVal.obj [("name", JsVal.str "B")]])]) ⟨false⟩).2.rows.length = 4 := by
  have h := renderTable_expansion ⟨[[JsVal.str "\x7b\x7b#table items\x7d\x7d"],
      [JsVal.str "\x7b\x7bname\x7d\x7d"]], []⟩ 1 "items" []
      (JsVal.obj [("items", JsVal.arr [JsVal.obj [("name", JsVal.str "A")],
        JsVal.obj [("name", JsVal.str "B")]])]) ⟨false⟩
      [JsVal.obj [("name", JsVal.str "A")], JsVal.obj [("name", JsVal.str "B")]]
      (by norm_num) (by norm_num) rfl (by simp)
  exact ⟨h.2.1, h.2.2.2⟩
